import Mathlib

/-!
Verification of the tool-invocation orchestration subsystem of a chat
backend: the two-stage tool-gating helpers
(`backend/open_webui/utils/tool_gating.py`, and the gating branch of
`backend/open_webui/routers/openai.py`) and the streaming marker-detection
engine (`backend/open_webui/utils/tool_inline_executor.py`).

Strings are modelled as `List Char` (named `Str`).  Python's `re` searches
used by the code are compiled, fixed patterns; each is embedded as a
deterministic matching function, exploiting that for these particular
patterns greedy matching with backtracking is equivalent to a one-pass
deterministic scan (every starred/plussed class is terminated by a
mandatory literal character that the class excludes).

The injected LLM capability (`llm_call_fn`) is modelled as an optional
function from (system prompt, user message) to a success/error result;
the event emitter is modelled by returning the list of emitted events.
-/

namespace HyuMath

abbrev Str := List Char

def str (s : String) : Str := s.data

/-- Python `\s` on ASCII input (space, tab, newline, carriage return,
form feed, vertical tab). -/
def isPySpace (c : Char) : Bool :=
  c = ' ' || c = '\t' || c = '\n' || c = '\r' || c = '\x0c' || c = '\x0b'

/-- Python `str.strip()`. -/
def pyStrip (s : Str) : Str :=
  ((s.dropWhile isPySpace).reverse.dropWhile isPySpace).reverse

/-- Case folding used to model `re.IGNORECASE` on ASCII. -/
def ciChar (a b : Char) : Bool := a.toLower = b.toLower

/-- Does `pat` match the start of `s` up to case?  Models a case-insensitive
literal at the current position. -/
def ciPrefAt : Str → Str → Bool
  | [], _ => true
  | _ :: _, [] => false
  | a :: as, b :: bs => ciChar a b && ciPrefAt as bs

/-- First position (if any) at which the position matcher `f` succeeds;
models `re.search` for a pattern whose per-position match is `f`.
Position `s.length` (the empty suffix) is also tried, as `re.search` does. -/
def searchFirst (f : Str → Option α) : Str → Option (Nat × α)
  | [] => (f []).map (fun a => (0, a))
  | s@(_ :: t) =>
    match f s with
    | some a => some (0, a)
    | none => (searchFirst f t).map (fun p => (p.1 + 1, p.2))

/-- Python `str.find(pat)` (earliest occurrence), as an `Option`. -/
def findSub (pat : Str) (s : Str) : Option Nat :=
  (searchFirst (fun t => if pat.isPrefixOf t then some () else none) s).map (·.1)

/-- Python `str.find(pat, start)`. -/
def findSubFrom (pat : Str) (s : Str) (start : Nat) : Option Nat :=
  (findSub pat (s.drop start)).map (· + start)

/-- Python `sub in s` for strings. -/
def containsSub (pat : Str) (s : Str) : Bool :=
  (findSub pat s).isSome

/-! ## The two compiled patterns of `ToolInlineExecutor`

`UNSUPPORTED_PATTERN = <tool-unsupported\s+tool="([^"]+)"\s+reason="([^"]+)"\s*/?>`
with `re.IGNORECASE`, and the dynamically built
`_build_marker_pattern` = `<(cmd1|...|cmdn)>(.*?)</\1>` with
`re.DOTALL | re.IGNORECASE`.

Both matchers return, besides the captured groups, the remaining suffix
of the input after the match (so the match length is
`s.length - rest.length`). -/

/-- Consume a case-insensitive literal. -/
def ciDrop (pat : Str) (s : Str) : Option Str :=
  if ciPrefAt pat s then some (s.drop pat.length) else none

/-- Consume `\s+`. -/
def wsPlus (s : Str) : Option Str :=
  match s with
  | c :: t => if isPySpace c then some (t.dropWhile isPySpace) else none
  | [] => none

/-- Consume `([^"]+)"`, returning the capture. -/
def quotedCapture (s : Str) : Option (Str × Str) :=
  if s.takeWhile (· ≠ '"') = [] then none
  else
    match s.drop (s.takeWhile (· ≠ '"')).length with
    | '"' :: t => some (s.takeWhile (· ≠ '"'), t)
    | _ => none

/-- Match `UNSUPPORTED_PATTERN` at the start of `s`.
Returns `(tool, reason, rest-after-match)`. -/
def matchUnsupportedAt (s : Str) : Option (Str × Str × Str) :=
  match ciDrop (str "<tool-unsupported") s with
  | none => none
  | some s1 =>
  match wsPlus s1 with
  | none => none
  | some s2 =>
  match ciDrop (str "tool=\"") s2 with
  | none => none
  | some s3 =>
  match quotedCapture s3 with
  | none => none
  | some (tool, s4) =>
  match wsPlus s4 with
  | none => none
  | some s5 =>
  match ciDrop (str "reason=\"") s5 with
  | none => none
  | some s6 =>
  match quotedCapture s6 with
  | none => none
  | some (reason, s7) =>
  match s7.dropWhile isPySpace with
  | '/' :: '>' :: rest => some (tool, reason, rest)
  | '>' :: rest => some (tool, reason, rest)
  | _ => none

/-- A found `UNSUPPORTED_PATTERN` match: start index, the two captures,
and the suffix of the buffer after the match (`buffer[match.end():]`). -/
structure UMatch where
  start : Nat
  tool : Str
  reason : Str
  rest : Str
  deriving Repr, DecidableEq

/-- `UNSUPPORTED_PATTERN.search(s)`. -/
def searchUnsupported (s : Str) : Option UMatch :=
  (searchFirst matchUnsupportedAt s).map
    (fun p => ⟨p.1, p.2.1, p.2.2.1, p.2.2.2⟩)

/-- Match `<(c1|...|cn)>(.*?)</\1>` at the start of `s`: alternatives are
tried in `cmds` order; for the first alternative whose opening tag matches,
the non-greedy `(.*?)` takes the earliest case-insensitive closing tag,
and if no closing tag exists the next alternative is tried (backtracking).
Returns `(group1-as-matched, content, rest-after-match)`. -/
def matchMarkerAt (cmds : List Str) (s : Str) : Option (Str × Str × Str) :=
  cmds.findSome? fun c =>
    let opn : Str := '<' :: (c ++ ['>'])
    if ciPrefAt opn s then
      let inner := s.drop opn.length
      let cls : Str := '<' :: '/' :: (c ++ ['>'])
      match searchFirst (fun t => if ciPrefAt cls t then some () else none) inner with
      | some (j, _) =>
        some ((s.drop 1).take c.length, inner.take j, (inner.drop j).drop cls.length)
      | none => none
    else none

/-- A found command-marker match: start index, `group(1)` (the command as
it appears in the buffer), `group(2)` (the inner context), and the suffix
after the match. -/
structure MMatch where
  start : Nat
  cmd : Str
  content : Str
  rest : Str
  deriving Repr, DecidableEq

/-- `self._marker_pattern.search(s)` for command set `cmds`. -/
def searchMarker (cmds : List Str) (s : Str) : Option MMatch :=
  (searchFirst (matchMarkerAt cmds) s).map
    (fun p => ⟨p.1, p.2.1, p.2.2.1, p.2.2.2⟩)

/-! ## `ToolInlineExecutor` -/

/-- Result of the injected `llm_call_fn`: a dict with a truthy or falsy
`success` key, plus `text` resp. `error`. -/
inductive LLMResult
  | ok (text : Str)
  | err (msg : Str)
  deriving Repr, DecidableEq

/-- Events sent through `_emit_event` (type and tool; the human-readable
`message` field carries no decision-relevant data and is omitted). -/
inductive Event
  | toolExecuting (tool : Str)
  | toolCompleted (tool : Str)
  | toolRecovery (tool : Str)
  | toolRecoveryCompleted (tool : Str)
  deriving Repr, DecidableEq

/-- One piece of the string returned by `process_chunk`, tagged by which
code path appended it: ordinary buffered text, the result of a nested
tool-execution call, or the result of a recovery call.  The string the
Python method returns is `render` of the item list. -/
inductive Item
  | text (s : Str)
  | toolOut (s : Str)
  | recovery (s : Str)
  deriving Repr, DecidableEq

def Item.payload : Item → Str
  | .text s => s
  | .toolOut s => s
  | .recovery s => s

/-- The string actually returned by `process_chunk`. -/
def render (items : List Item) : Str :=
  (items.map Item.payload).flatten

/-- The emitted output excluding nested tool-execution/recovery output. -/
def emittedText (items : List Item) : Str :=
  (items.filterMap (fun i => match i with | .text s => some s | _ => none)).flatten

/-- Constructor arguments of `ToolInlineExecutor` that stay fixed:
`tool_prompts` (an insertion-ordered dict, modelled as an association
list) and `llm_call_fn` (model call capability taking system prompt and
user message).  `event_emitter` is modelled by returning event lists;
`conversation_context` is never read by the code. -/
structure Config where
  prompts : List (Str × Str)
  llm : Option (Str → Str → LLMResult)

/-- `list(self.tool_prompts.keys())`. -/
def Config.commands (cfg : Config) : List Str := cfg.prompts.map (·.1)

/-- Mutable state of the executor.  The fields `in_tool_marker` and
`current_marker_start` set in `__init__` are never read or written
afterwards (the loop uses shadowing locals) and are omitted. -/
structure ExecState where
  buffer : Str
  generated : Str
  deriving Repr, DecidableEq

def initState : ExecState := ⟨[], []⟩

/-- `command.lower().replace('_', '-').lstrip('/')`. -/
def normTool (c : Str) : Str :=
  ((c.map Char.toLower).map (fun ch => if ch = '_' then '-' else ch)).dropWhile (· = '/')

/-- `ToolInlineExecutor._find_tool_prompt`. -/
def findToolPrompt (cfg : Config) (command : Str) : Option Str :=
  let n := normTool command
  match cfg.prompts.findSome? (fun kv => if kv.1 = n then some kv.2 else none) with
  | some p => some p
  | none =>
    cfg.prompts.findSome? fun kv =>
      let kn := normTool kv.1
      if containsSub n kn || containsSub kn n then some kv.2 else none

/-- The tool-specific system prompt built in `_execute_tool`. -/
def toolSystemPrompt (toolPrompt context : Str) : Str :=
  toolPrompt ++ str "\n\nGenerate the visualization for the following request:\n"
    ++ context
    ++ str "\n\nOutput ONLY the tool-specific JSON block wrapped in appropriate markers.\nDo NOT include any explanatory text before or after the output block."

/-- `ToolInlineExecutor._execute_tool`: returns the text spliced into the
stream and the events emitted. -/
def executeTool (cfg : Config) (command context : Str) : Str × List Event :=
  match findToolPrompt cfg command with
  | none =>
    (str "\n<!-- Tool \x27" ++ command ++ str "\x27 not found -->\n",
     [.toolExecuting command, .toolCompleted command])
  | some tp =>
    match cfg.llm with
    | none =>
      (str "\n<!-- No LLM function for tool \x27" ++ command ++ str "\x27 -->\n",
       [.toolExecuting command, .toolCompleted command])
    | some f =>
      match f (toolSystemPrompt tp context) context with
      | .ok t => ('\n' :: (t ++ ['\n']), [.toolExecuting command, .toolCompleted command])
      | .err e =>
        (str "\n<!-- Tool error: " ++ e ++ str " -->\n",
         [.toolExecuting command, .toolCompleted command])

/-- The fixed system prompt of the recovery call (Korean text from the
source, verbatim). -/
def recoverySystemPrompt : Str :=
  str "당신은 수학 학습을 돕는 AI 튜터입니다.\n\n이전 응답에서 시각화 도구를 사용하려 했으나, 해당 내용을 시각화할 수 없습니다.\n시각화 없이 텍스트 설명으로 자연스럽게 계속 설명해주세요.\n\n주의사항:\n- 시각화를 생성할 수 없다는 것을 명시적으로 언급하지 마세요\n- 마치 처음부터 텍스트로 설명하려 했던 것처럼 자연스럽게 이어가세요\n- 수식이 필요하면 LaTeX 형식 ($...$)을 사용하세요\n- 간결하고 명확하게 설명하세요"

/-- The user message of the recovery call, built from the last at most
1000 characters of `generated_content` and the failure reason. -/
def recoveryUserMessage (preview reason : Str) : Str :=
  str "지금까지 생성된 응답:\n" ++ preview
    ++ str "\n\n도구 실패 이유: " ++ reason
    ++ str "\n\n위 내용에서 자연스럽게 이어서 설명을 계속해주세요. 1-2문장 정도로 간결하게."

/-- The fixed message returned when no `llm_call_fn` is configured. -/
def noVizMessage (reason : Str) : Str :=
  str "\n\n(시각화를 생성할 수 없습니다: " ++ reason ++ str ")\n\n"

/-- `ToolInlineExecutor._handle_unsupported_tool`: `gen` is the value of
`self.generated_content` at call time. -/
def handleUnsupported (cfg : Config) (gen tool reason : Str) : Str × List Event :=
  match cfg.llm with
  | none => (noVizMessage reason, [.toolRecovery tool])
  | some f =>
    let preview := gen.drop (gen.length - 1000)
    match f recoverySystemPrompt (recoveryUserMessage preview reason) with
    | .ok t => (' ' :: t, [.toolRecovery tool, .toolRecoveryCompleted tool])
    | .err _ => ([], [.toolRecovery tool])

/-- The "are we inside a potential marker" scan of the no-complete-marker
branch: position of the first opening tag lacking its closing tag (taken
over commands in dict order), possibly overridden by an earlier partial
`<tool-unsupported` occurrence that is not followed by `/>`. -/
def inMarkerPos (cfg : Config) (buf : Str) : Option Nat :=
  let cmdPos : Option Nat := cfg.commands.findSome? fun c =>
    let opn : Str := '<' :: (c ++ ['>'])
    let cls : Str := '<' :: '/' :: (c ++ ['>'])
    match findSub opn buf with
    | some p => if (findSubFrom cls buf (p + opn.length)).isNone then some p else none
    | none => none
  let unsPos : Option Nat :=
    match findSub (str "<tool-unsupported") buf with
    | some up => if (findSubFrom (str "/>") buf up).isNone then some up else none
    | none => none
  match cmdPos, unsPos with
  | some p, some up => some (if up < p then up else p)
  | some p, none => some p
  | none, some up => some up
  | none, none => none

/-- `for i in range(1, len(pat)): if buffer.endswith(pat[:i]) ...` —
the first length `i ∈ [1, pat.length)` such that `buf` ends with the
first `i` characters of `pat`. -/
def firstTagPieceAtEnd (pat : Str) (buf : Str) : Option Nat :=
  (List.range' 1 (pat.length - 1)).find? (fun i => (pat.take i).isSuffixOf buf)

/-- The partial-opening-tag-at-end scan: commands first (dict order),
then the `<tool-unsupported` literal. -/
def endRetain (cfg : Config) (buf : Str) : Option Nat :=
  match cfg.commands.findSome? (fun c => firstTagPieceAtEnd ('<' :: (c ++ ['>'])) buf) with
  | some i => some i
  | none => firstTagPieceAtEnd (str "<tool-unsupported") buf

/-- Number of leading buffer characters emitted by the
no-complete-marker branch (the rest is retained in the buffer). -/
def elseKeepPos (cfg : Config) (buf : Str) : Nat :=
  match inMarkerPos cfg buf with
  | some p => p
  | none =>
    match endRetain cfg buf with
    | some i => buf.length - i
    | none => buf.length

/-- The `while True:` loop of `process_chunk` (entered with
`self.buffer` already extended by the chunk).  Returns the final buffer,
the final `generated_content`, the output items and the events.  `fuel`
bounds the iteration count; `buf.length + 1` always suffices since every
continuing iteration strictly shortens the buffer. -/
def processLoop (cfg : Config) : Nat → Str → Str → Str × Str × List Item × List Event
  | 0, buf, gen => (buf, gen, [], [])
  | fuel + 1, buf, gen =>
    match searchUnsupported buf, searchMarker cfg.commands buf with
    | some u, none =>
      let tb := buf.take u.start
      let hr := handleUnsupported cfg (gen ++ tb) u.tool u.reason
      let r := processLoop cfg fuel u.rest (gen ++ tb ++ hr.1)
      (r.1, r.2.1, .text tb :: .recovery hr.1 :: r.2.2.1, hr.2 ++ r.2.2.2)
    | some u, some m =>
      if u.start < m.start then
        let tb := buf.take u.start
        let hr := handleUnsupported cfg (gen ++ tb) u.tool u.reason
        let r := processLoop cfg fuel u.rest (gen ++ tb ++ hr.1)
        (r.1, r.2.1, .text tb :: .recovery hr.1 :: r.2.2.1, hr.2 ++ r.2.2.2)
      else
        let tb := buf.take m.start
        let tr := executeTool cfg m.cmd (pyStrip m.content)
        let r := processLoop cfg fuel m.rest (gen ++ tb ++ tr.1)
        (r.1, r.2.1, .text tb :: .toolOut tr.1 :: r.2.2.1, tr.2 ++ r.2.2.2)
    | none, some m =>
      let tb := buf.take m.start
      let tr := executeTool cfg m.cmd (pyStrip m.content)
      let r := processLoop cfg fuel m.rest (gen ++ tb ++ tr.1)
      (r.1, r.2.1, .text tb :: .toolOut tr.1 :: r.2.2.1, tr.2 ++ r.2.2.2)
    | none, none =>
      let keep := elseKeepPos cfg buf
      (buf.drop keep, gen ++ buf.take keep, [.text (buf.take keep)], [])

/-- `ToolInlineExecutor.process_chunk`.  When `tool_prompts` is empty,
`_marker_pattern` is `None` and the method only runs
`_process_unsupported_markers` on the buffer (no loop, no partial-marker
retention); otherwise it runs the detection loop. -/
def processChunk (cfg : Config) (st : ExecState) (chunk : Str) :
    ExecState × List Item × List Event :=
  match cfg.prompts with
  | [] =>
    let buf := st.buffer ++ chunk
    match searchUnsupported buf with
    | some u =>
      let tb := buf.take u.start
      let hr := handleUnsupported cfg st.generated u.tool u.reason
      (⟨[], st.generated ++ (tb ++ hr.1)⟩, [.text tb, .recovery hr.1], hr.2)
    | none =>
      (⟨[], st.generated ++ chunk⟩, [.text chunk], [])
  | _ :: _ =>
    let buf := st.buffer ++ chunk
    let r := processLoop cfg (buf.length + 1) buf st.generated
    (⟨r.1, r.2.1⟩, r.2.2.1, r.2.2.2)

/-- `ToolInlineExecutor.flush`. -/
def flush (st : ExecState) : Str × ExecState :=
  (st.buffer, ⟨[], st.generated⟩)

/-- Feed a sequence of chunks, collecting all items and events. -/
def runChunks (cfg : Config) (st : ExecState) : List Str → ExecState × List Item × List Event
  | [] => (st, [], [])
  | c :: cs =>
    let r1 := processChunk cfg st c
    let r2 := runChunks cfg r1.1 cs
    (r2.1, r1.2.1 ++ r2.2.1, r1.2.2 ++ r2.2.2)

/-- The opening tag `<c>` of a command. -/
def mkOpen (c : Str) : Str := '<' :: (c ++ ['>'])

/-- The closing tag `</c>` of a command. -/
def mkClose (c : Str) : Str := '<' :: '/' :: (c ++ ['>'])

/-- A complete command marker `<c>ctx</c>`. -/
def mkMarker (c ctx : Str) : Str := mkOpen c ++ (ctx ++ mkClose c)

/-- `pat` has no case-insensitive occurrence starting anywhere in `s`. -/
def noOccur (pat s : Str) : Prop :=
  ∀ q, ciPrefAt pat (s.drop q) = false

/-- `pat` has no case-insensitive occurrence starting at a position
strictly inside `s`, in the string `s ++ rest`. -/
def noOccurPre (pat s rest : Str) : Prop :=
  ∀ q, q < s.length → ciPrefAt pat (s.drop q ++ rest) = false

/-! ## Tool gating (`tool_gating.py` and the gating branch of
`routers/openai.py`)

Python values produced by `json.loads` are modelled by `Json`
(`Json.null` is Python `None`).  Numbers are modelled as integers only:
the model treats a float literal as a decode failure, a simplification
of `json.loads` that is irrelevant to the fixed selection schema. -/

inductive Json
  | null
  | bool (b : Bool)
  | num (n : Int)
  | str (s : Str)
  | arr (elems : List Json)
  | obj (members : List (Str × Json))
  deriving Repr

def isJsonWs (c : Char) : Bool := c = ' ' || c = '\t' || c = '\n' || c = '\r'

/-- JSON string body after the opening quote; returns the decoded
characters and the rest after the closing quote.  `\uXXXX` escapes are
not modelled (treated as decode failure). -/
def parseStringBody : Str → Option (Str × Str)
  | [] => none
  | '"' :: r => some ([], r)
  | '\\' :: c :: r =>
    (match c with
     | '"' => some '"'
     | '\\' => some '\\'
     | '/' => some '/'
     | 'n' => some '\n'
     | 't' => some '\t'
     | 'r' => some '\r'
     | 'b' => some '\x08'
     | 'f' => some '\x0c'
     | _ => none).bind fun e =>
      (parseStringBody r).map (fun (p : Str × Str) => (e :: p.1, p.2))
  | c :: r => (parseStringBody r).map (fun (p : Str × Str) => (c :: p.1, p.2))

def parseDigits (s : Str) : Option (Nat × Str) :=
  let ds := s.takeWhile (·.isDigit)
  if ds = [] then none
  else some (ds.foldl (fun n c => n * 10 + (c.toNat - 48)) 0, s.drop ds.length)

def parseIntTok (s : Str) : Option (Int × Str) :=
  let (neg, s1) : Bool × Str := match s with | '-' :: t => (true, t) | _ => (false, s)
  (parseDigits s1).bind fun p =>
    let bad : Bool := match p.2 with
      | c :: _ => c = '.' || c = 'e' || c = 'E'
      | [] => false
    if bad then none
    else some (if neg then -(p.1 : Int) else (p.1 : Int), p.2)

mutual

/-- Recursive-descent JSON value parser (models `json.loads`). -/
def parseJsonVal : Nat → Str → Option (Json × Str)
  | 0, _ => none
  | fuel + 1, s0 =>
    let s := s0.dropWhile isJsonWs
    match s with
    | '\x7b' :: r =>
      let r1 := r.dropWhile isJsonWs
      (match r1 with
       | '\x7d' :: r2 => some (.obj [], r2)
       | _ => (parseObjMembers fuel r1).map
           (fun (p : List (Str × Json) × Str) => (Json.obj p.1, p.2)))
    | '[' :: r =>
      let r1 := r.dropWhile isJsonWs
      (match r1 with
       | ']' :: r2 => some (.arr [], r2)
       | _ => (parseArrElems fuel r1).map
           (fun (p : List Json × Str) => (Json.arr p.1, p.2)))
    | '"' :: r => (parseStringBody r).map (fun p => (.str p.1, p.2))
    | 't' :: r => if (str "rue").isPrefixOf r then some (.bool true, r.drop 3) else none
    | 'f' :: r => if (str "alse").isPrefixOf r then some (.bool false, r.drop 4) else none
    | 'n' :: r => if (str "ull").isPrefixOf r then some (.null, r.drop 3) else none
    | _ => (parseIntTok s).map (fun p => (.num p.1, p.2))

def parseObjMembers : Nat → Str → Option (List (Str × Json) × Str)
  | 0, _ => none
  | fuel + 1, s =>
    match s with
    | '"' :: r =>
      (parseStringBody r).bind fun kp =>
        match kp.2.dropWhile isJsonWs with
        | ':' :: r3 =>
          (parseJsonVal fuel r3).bind fun vp =>
            (match vp.2.dropWhile isJsonWs with
             | ',' :: r6 =>
               (parseObjMembers fuel (r6.dropWhile isJsonWs)).map
                 (fun p => ((kp.1, vp.1) :: p.1, p.2))
             | '\x7d' :: r6 => some ([(kp.1, vp.1)], r6)
             | _ => none)
        | _ => none
    | _ => none

def parseArrElems : Nat → Str → Option (List Json × Str)
  | 0, _ => none
  | fuel + 1, s =>
    (parseJsonVal fuel s).bind fun vp =>
      match vp.2.dropWhile isJsonWs with
      | ',' :: r => (parseArrElems fuel r).map (fun p => (vp.1 :: p.1, p.2))
      | ']' :: r => some ([vp.1], r)
      | _ => none

end

/-- `json.loads` (must consume the whole string). -/
def jsonLoads (s : Str) : Option Json :=
  (parseJsonVal (s.length + 1) s).bind fun p =>
    if p.2.dropWhile isJsonWs = [] then some p.1 else none

/-! The object-extraction regex
`\{[^{}]*(?:\{[^{}]*\}[^{}]*)*\}` of `parse_tool_selection_response`.
At a position holding `{`, greedy matching with backtracking succeeds iff
the subsequent brace characters read as zero or more `{`,`}` pairs
followed by a closing `}`; the non-brace runs in between are forced.  -/

def nonBrace (c : Char) : Bool := c ≠ '\x7b' && c ≠ '\x7d'

def braceTailScan : Nat → Str → Option Str
  | 0, _ => none
  | fuel + 1, s =>
    let r := s.dropWhile nonBrace
    match r with
    | '\x7d' :: rest => some rest
    | '\x7b' :: rest =>
      let r2 := rest.dropWhile nonBrace
      (match r2 with
       | '\x7d' :: rest2 => braceTailScan fuel rest2
       | _ => none)
    | _ => none

/-- Match the object-extraction regex at the start of `s`, returning the
matched substring (`match.group()`). -/
def matchBraceObjAt (s : Str) : Option Str :=
  match s with
  | '\x7b' :: r =>
    (braceTailScan (r.length + 1) r).map (fun rest => s.take (s.length - rest.length))
  | _ => none

/-- `re.search` of the object-extraction regex. -/
def searchBraceObj (s : Str) : Option Str :=
  (searchFirst matchBraceObjAt s).map (·.2)

/-- The markdown-fence stripping step of `parse_tool_selection_response`
(the two `re.sub` calls, applied only when the stripped response starts
with a fence). -/
def stripFence (s : Str) : Str :=
  if (str "```").isPrefixOf s then
    let s1 := s.drop 3
    let s2 := if (str "json").isPrefixOf s1 then s1.drop 4 else s1
    let s3 := s2.dropWhile isPySpace
    if (str "```").isSuffixOf s3 then
      ((s3.take (s3.length - 3)).reverse.dropWhile isPySpace).reverse
    else s3
  else s

/-- `dict.get` on a decoded object: duplicate keys in the JSON source
overwrite, so the last binding wins. -/
def jsonGet (members : List (Str × Json)) (k : Str) : Option Json :=
  (members.reverse.find? (fun kv => kv.1 == k)).map (·.2)

/-- `parse_tool_selection_response`.  Returns the pair
`(selected_tools, direct_answer)` as Python values: the first component
is whatever value `need_tools` held (after the bare-string coercion), the
second is `None`/a value.  Any exception inside the `try` (decode error,
or `data.get` on a non-dict, which cannot actually arise from a
`{`-leading decode) lands in the degrade branch `([], response)`. -/
def parseToolSelectionResponse (response : Str) : Json × Option Json :=
  let js := stripFence (pyStrip response)
  match searchBraceObj js with
  | none => (Json.arr [], some (Json.str response))
  | some m =>
    match jsonLoads m with
    | some (Json.obj members) =>
      let tools := (jsonGet members (str "need_tools")).getD (Json.arr [])
      let answer : Option Json :=
        match jsonGet members (str "answer") with
        | some Json.null => none
        | a => a
      let tools :=
        match tools with
        | Json.str s => if s = [] then Json.arr [] else Json.arr [Json.str s]
        | t => t
      (tools, answer)
    | some _ => (Json.arr [], some (Json.str response))
    | none => (Json.arr [], some (Json.str response))

/-- The extraction pipeline up to `json.loads`: `some v` iff a
brace-delimited object was found in the fence-stripped text and decoded
successfully. -/
def extractedJson (response : Str) : Option Json :=
  match searchBraceObj (stripFence (pyStrip response)) with
  | none => none
  | some m => jsonLoads m

/-! ### Stage-2 composition -/

/-- The fields of a tool `PromptModel` used by Stage-2 composition. -/
structure ToolPrompt where
  command : Str
  content : Str
  tool_priority : Option Int
  deriving Repr, DecidableEq

/-- `cmd.lstrip('/') if cmd else ''`. -/
def normSlash (c : Str) : Str := c.dropWhile (· = '/')

/-- `get_tool_prompts_by_commands`. -/
def getToolPromptsByCommands (tools : List ToolPrompt) (selected : List Str) :
    List ToolPrompt :=
  tools.filter (fun t => (selected.map normSlash).contains (normSlash t.command))

/-- `t.tool_priority or 0`. -/
def prio (t : ToolPrompt) : Int := t.tool_priority.getD 0

/-- Comparison of Python's `sorted(key=..., reverse=True)`: `a` may come
before `b` iff `a`'s priority is at least `b`'s. -/
def prioGe (a b : ToolPrompt) : Bool := prio b ≤ prio a

/-- Stable insertion into a descending-sorted list (equal keys keep the
earlier element first), modelling Python's stable descending sort. -/
def insertDesc (x : ToolPrompt) : List ToolPrompt → List ToolPrompt
  | [] => [x]
  | y :: ys => if prioGe x y then x :: y :: ys else y :: insertDesc x ys

/-- Python `sorted(tools, key=lambda t: t.tool_priority or 0, reverse=True)`
(stable sorts with the same key order agree extensionally). -/
def sortDesc : List ToolPrompt → List ToolPrompt
  | [] => []
  | x :: xs => insertDesc x (sortDesc xs)

/-- `compose_stage2_system_prompt`. -/
def composeStage2 (base : Str) (selected : List ToolPrompt) : Str :=
  match selected with
  | [] => base
  | _ :: _ =>
    base ++ str "\n\n"
      ++ (List.intercalate (str "\n\n") ((sortDesc selected).map (·.content)))

/-! ### The gating decision of `generate_chat_completion`
(`routers/openai.py`).  `execute_with_tool_gating` in `tool_gating.py`
has no caller in the repository; the router branch is the live path.  It
computes the system prompt of the final generation call; the Stage-1
`direct_answer` variable is bound but never read. -/

def jsonTruthy : Json → Bool
  | .null => false
  | .bool b => b
  | .num n => n ≠ 0
  | .str s => !s.isEmpty
  | .arr l => !l.isEmpty
  | .obj l => !l.isEmpty

/-- The commands list as iterated by `get_tool_prompts_by_commands`; a
non-list, non-string truthy selection would raise in the router
(modelled as `none`). -/
def asStrList : Json → Option (List Str)
  | .arr l => l.mapM (fun v => match v with | Json.str s => some s | _ => none)
  | _ => none

/-- The gating branch of the router: from the Stage-1 call result to the
system prompt of the final generation call (`none` models an uncaught
exception, which cannot arise from `parse_tool_selection_response`'s
actual outputs on the empty/str-list side). -/
def gatingFinalSystem (base : Str) (tools : List ToolPrompt) (stage1 : LLMResult) :
    Option Str :=
  match stage1 with
  | .err _ => some base
  | .ok text =>
    let sel := (parseToolSelectionResponse text).1
    if jsonTruthy sel then
      match asStrList sel with
      | some cmds => some (composeStage2 base (getToolPromptsByCommands tools cmds))
      | none => none
    else some base

/-! # Theorems -/

/-! ## Stable descending sort -/

theorem insertDesc_perm (x : ToolPrompt) (l : List ToolPrompt) :
    List.Perm (insertDesc x l) (x :: l) := by
  induction l with
  | nil => simp [insertDesc]
  | cons y ys ih =>
    simp only [insertDesc]
    split
    · exact List.Perm.refl _
    · exact ((ih.cons y).trans (List.Perm.swap x y ys))

theorem sortDesc_perm (l : List ToolPrompt) : List.Perm (sortDesc l) l := by
  induction l with
  | nil => simp [sortDesc]
  | cons x xs ih => exact (insertDesc_perm x (sortDesc xs)).trans (ih.cons x)

theorem insertDesc_pairwise (x : ToolPrompt) (l : List ToolPrompt)
    (h : l.Pairwise (fun a b => prio b ≤ prio a)) :
    (insertDesc x l).Pairwise (fun a b => prio b ≤ prio a) := by
  induction l with
  | nil => simp [insertDesc]
  | cons y ys ih =>
    rcases List.pairwise_cons.mp h with ⟨hy, hys⟩
    simp only [insertDesc]
    split
    · rename_i hxy
      refine List.pairwise_cons.mpr ⟨?_, h⟩
      intro z hz
      rcases hz with _ | hz
      · exact of_decide_eq_true hxy
      · exact le_trans (hy z (by assumption)) (of_decide_eq_true hxy)
    · rename_i hxy
      refine List.pairwise_cons.mpr ⟨?_, ih hys⟩
      intro z hz
      have hz' : z ∈ x :: ys := (insertDesc_perm x ys).mem_iff.mp hz
      rcases hz' with _ | hz'
      · exact le_of_not_le (fun hc => hxy (decide_eq_true hc))
      · exact hy z (by assumption)

theorem sortDesc_pairwise (l : List ToolPrompt) :
    (sortDesc l).Pairwise (fun a b => prio b ≤ prio a) := by
  induction l with
  | nil => simp [sortDesc]
  | cons x xs ih => exact insertDesc_pairwise x (sortDesc xs) ih

/-! ## Claims C4, C6, C7, C8, C9 -/

/-- C4: `parse_tool_selection_response` is total (the model is a Lean
function, and every exception path of the source lands in the degrade
branch), and whenever no brace-delimited JSON object is found in the
fence-stripped text or JSON decoding fails, it returns the empty
selection with `directAnswer` equal to the entire original input;
concretely, a fenced `{"need_tools": []}` yields empty selection with no
direct answer, and `"not json at all"` yields empty selection with the
input itself as direct answer. -/
theorem parse_selection_total_and_degrades :
    (∀ s : Str, extractedJson s = none →
        parseToolSelectionResponse s = (Json.arr [], some (Json.str s)))
    ∧ parseToolSelectionResponse (str "```json\n\x7b\"need_tools\": []\x7d\n```")
        = (Json.arr [], none)
    ∧ parseToolSelectionResponse (str "not json at all")
        = (Json.arr [], some (Json.str (str "not json at all"))) := by
  refine ⟨?_, rfl, rfl⟩
  intro s h
  unfold extractedJson at h
  unfold parseToolSelectionResponse
  cases hs : searchBraceObj (stripFence (pyStrip s)) with
  | none => simp [hs]
  | some m =>
    rw [hs] at h
    have h' : jsonLoads m = none := h
    simp [hs, h']

theorem parse_selection_total_and_degrades_witness :
    extractedJson (str "no braces here") = none
    ∧ parseToolSelectionResponse (str "no braces here")
        = (Json.arr [], some (Json.str (str "no braces here"))) :=
  ⟨rfl, parse_selection_total_and_degrades.1 _ rfl⟩

/-- C9, counterexample: a `need_tools` value of any non-list type other
than a string is NOT replaced by the empty list — the decoded value is
returned unchanged.  On `{"need_tools": 42}` the selection component is
the number 42, not the empty list. -/
theorem need_tools_nonlist_passthrough :
    (parseToolSelectionResponse (str "\x7b\"need_tools\": 42\x7d")).1 = Json.num 42
    ∧ Json.num 42 ≠ Json.arr [] :=
  ⟨rfl, fun h => Json.noConfusion h⟩

/-- C9, amended: in `parse_tool_selection_response`, when the decoded
object's `need_tools` value is missing the returned selection is the
empty list; a non-empty bare string is coerced into a one-element list
and an empty string into an empty list; every other value — list or not
(e.g. a number or `null`) — is returned unchanged, with no coercion to
the empty list. -/
theorem need_tools_coercion (s : Str) (members : List (Str × Json))
    (hd : extractedJson s = some (Json.obj members)) :
    (jsonGet members (str "need_tools") = none →
        (parseToolSelectionResponse s).1 = Json.arr [])
    ∧ (∀ t : Str, jsonGet members (str "need_tools") = some (Json.str t) →
        (parseToolSelectionResponse s).1
          = if t = [] then Json.arr [] else Json.arr [Json.str t])
    ∧ (∀ v : Json, jsonGet members (str "need_tools") = some v →
        (∀ t : Str, v ≠ Json.str t) →
        (parseToolSelectionResponse s).1 = v) := by
  unfold extractedJson at hd
  have : ∃ m, searchBraceObj (stripFence (pyStrip s)) = some m
      ∧ jsonLoads m = some (Json.obj members) := by
    cases hs : searchBraceObj (stripFence (pyStrip s)) with
    | none => rw [hs] at hd; exact absurd hd (by simp)
    | some m => rw [hs] at hd; exact ⟨m, rfl, hd⟩
  rcases this with ⟨m, hs, hl⟩
  unfold parseToolSelectionResponse
  simp only [hs, hl]
  refine ⟨?_, ?_, ?_⟩
  · intro hg; simp [hg]
  · intro t hg; simp [hg]
  · intro v hg hv
    simp only [hg, Option.getD_some]

theorem need_tools_coercion_witness :
    extractedJson (str "\x7b\"need_tools\": null\x7d")
        = some (Json.obj [(str "need_tools", Json.null)])
    ∧ (parseToolSelectionResponse (str "\x7b\"need_tools\": null\x7d")).1 = Json.null :=
  ⟨rfl,
   (need_tools_coercion (str "\x7b\"need_tools\": null\x7d")
      [(str "need_tools", Json.null)] (by rfl)).2.2 Json.null rfl
    (fun t h => Json.noConfusion h)⟩

/-- C6: Stage 2 keeps exactly the tools whose command, with leading `/`
stripped on both sides, equals a selected command (case-sensitively);
any non-empty kept list is emitted sorted stably by descending
priority, contents joined by blank lines and appended to the base
prompt; concretely, selecting A (priority 2) and B (priority 5) puts
B's content before A's. -/
theorem stage2_composition (tools : List ToolPrompt) (selected : List Str)
    (base : Str) (ls : List ToolPrompt) (hls : ls ≠ []) :
    (∀ t, t ∈ getToolPromptsByCommands tools selected ↔
        t ∈ tools ∧ normSlash t.command ∈ selected.map normSlash)
    ∧ List.Perm (sortDesc ls) ls
    ∧ (sortDesc ls).Pairwise (fun a b => prio b ≤ prio a)
    ∧ composeStage2 base ls
        = base ++ str "\n\n"
          ++ List.intercalate (str "\n\n") ((sortDesc ls).map (·.content))
    ∧ composeStage2 (str "base")
        (getToolPromptsByCommands
          [⟨str "A", str "contentA", some 2⟩, ⟨str "B", str "contentB", some 5⟩]
          [str "A", str "B"])
        = str "base\n\ncontentB\n\ncontentA" := by
  refine ⟨?_, sortDesc_perm ls, sortDesc_pairwise ls, ?_, rfl⟩
  · intro t
    simp [getToolPromptsByCommands, List.mem_filter]
  · match ls, hls with
    | x :: xs, _ => rfl

theorem stage2_composition_witness :
    ([⟨str "A", str "contentA", some 2⟩, ⟨str "B", str "contentB", some 5⟩]
        : List ToolPrompt) ≠ []
    ∧ composeStage2 (str "base")
        [⟨str "A", str "contentA", some 2⟩, ⟨str "B", str "contentB", some 5⟩]
        = str "base" ++ str "\n\n"
          ++ List.intercalate (str "\n\n")
            ((sortDesc [⟨str "A", str "contentA", some 2⟩,
                        ⟨str "B", str "contentB", some 5⟩]).map (·.content)) :=
  ⟨by simp,
   (stage2_composition [] [] (str "base")
      [⟨str "A", str "contentA", some 2⟩, ⟨str "B", str "contentB", some 5⟩]
      (by simp)).2.2.2.1⟩

/-- C7: whenever Stage-1 parsing yields an empty `selectedCommands`
list, the router's gating branch sets the final generation call's system
prompt to exactly the base prompt; the parsed `direct_answer` is bound
but never read there, so Stage 1's answer is never what is delivered —
the delivered response comes from the final generation call. -/
theorem empty_selection_uses_base_prompt (base : Str) (tools : List ToolPrompt)
    (text : Str) (h : (parseToolSelectionResponse text).1 = Json.arr []) :
    gatingFinalSystem base tools (.ok text) = some base := by
  simp [gatingFinalSystem, h, jsonTruthy]

theorem empty_selection_uses_base_prompt_witness :
    (parseToolSelectionResponse
        (str "```json\n\x7b\"need_tools\": [], \"answer\": \"direct\"\x7d\n```")).1
      = Json.arr []
    ∧ gatingFinalSystem (str "base") []
        (.ok (str "```json\n\x7b\"need_tools\": [], \"answer\": \"direct\"\x7d\n```"))
      = some (str "base") :=
  ⟨rfl, empty_selection_uses_base_prompt _ _ _ rfl⟩

/-- C8: if the Stage-1 selection call fails, the router falls back to
the base system prompt with no tool content and proceeds to the final
generation call; the failure is absorbed (a system prompt is still
produced, never an error) and nothing is retried (the decision is a
single-shot function of the one Stage-1 result). -/
theorem stage1_failure_falls_back_to_base (base : Str) (tools : List ToolPrompt)
    (e : Str) : gatingFinalSystem base tools (.err e) = some base := rfl

/-! ## Inline executor: bookkeeping lemmas -/

theorem render_nil : render [] = [] := rfl

theorem render_cons (i : Item) (l : List Item) :
    render (i :: l) = i.payload ++ render l := rfl

theorem render_append (a b : List Item) : render (a ++ b) = render a ++ render b := by
  simp [render]

/-- Every loop iteration appends to `generated_content` exactly what it
appends to the output. -/
theorem processLoop_generated (cfg : Config) (fuel : Nat) :
    ∀ buf gen, (processLoop cfg fuel buf gen).2.1
      = gen ++ render (processLoop cfg fuel buf gen).2.2.1 := by
  induction fuel with
  | zero => intro buf gen; simp [processLoop, render]
  | succ n ih =>
    intro buf gen
    unfold processLoop
    cases hu : searchUnsupported buf with
    | none =>
      cases hm : searchMarker cfg.commands buf with
      | none => simp [render_cons, render, Item.payload]
      | some m => simp only []; rw [ih]; simp [render_cons, Item.payload]
    | some u =>
      cases hm : searchMarker cfg.commands buf with
      | none => simp only []; rw [ih]; simp [render_cons, Item.payload]
      | some m =>
        simp only []
        split
        · rw [ih]; simp [render_cons, Item.payload]
        · rw [ih]; simp [render_cons, Item.payload]

theorem processChunk_generated (cfg : Config) (st : ExecState) (chunk : Str) :
    (processChunk cfg st chunk).1.generated
      = st.generated ++ render (processChunk cfg st chunk).2.1 := by
  unfold processChunk
  cases hp : cfg.prompts with
  | nil =>
    simp only [hp]
    cases hu : searchUnsupported (st.buffer ++ chunk) with
    | none => simp [hu, render, Item.payload]
    | some u => simp [hu, render_cons, render, Item.payload]
  | cons a l =>
    simp only [hp]
    exact processLoop_generated cfg _ _ _

theorem runChunks_generated (cfg : Config) (chunks : List Str) :
    ∀ st, (runChunks cfg st chunks).1.generated
      = st.generated ++ render (runChunks cfg st chunks).2.1 := by
  induction chunks with
  | nil => intro st; simp [runChunks, render]
  | cons c cs ih =>
    intro st
    unfold runChunks
    simp only [render_append]
    rw [ih, processChunk_generated]
    simp

/-- C10: after any sequence of `process_chunk` calls starting from a
fresh executor, `generated_content` equals the concatenation of all
strings returned by `process_chunk` so far (so the recovery context
window is drawn exactly from what was emitted to the caller), and
`flush` returns the residual buffer without adding it to
`generated_content`. -/
theorem generated_content_tracks_returns (cfg : Config) (chunks : List Str)
    (st : ExecState) :
    (runChunks cfg initState chunks).1.generated
      = render (runChunks cfg initState chunks).2.1
    ∧ (flush st).2.generated = st.generated
    ∧ (flush st).1 = st.buffer := by
  refine ⟨?_, rfl, rfl⟩
  have := runChunks_generated cfg chunks initState
  simpa [initState] using this

/-- C5: recovery protocol for unsupported markers.  `_handle_unsupported_tool`
with no nested-call capability returns a fixed-shape non-empty message
citing inability to visualize and emits only `tool-recovery`; with a
failing nested call it returns the empty string and emits no
`tool-recovery-completed`; with a succeeding nested call it emits
`tool-recovery-completed` and returns the produced text prefixed with a
single space.  Processing the marker
`<tool-unsupported tool="graph" reason="too complex"/>` emits the
`tool-recovery` event and removes the marker from the emitted output
(the plain-text output is empty in both the no-capability and the
failing-call scenarios; in the latter the spliced recovery text is empty
as well). -/
theorem unsupported_recovery_protocol
    (cfg₀ cfg₁ : Config) (f : Str → Str → LLMResult) (g tool reason : Str)
    (h₀ : cfg₀.llm = none) (h₁ : cfg₁.llm = some f) :
    (handleUnsupported cfg₀ g tool reason
        = (noVizMessage reason, [Event.toolRecovery tool])
      ∧ noVizMessage reason ≠ [])
    ∧ (∀ e, f recoverySystemPrompt
          (recoveryUserMessage (g.drop (g.length - 1000)) reason) = .err e →
        handleUnsupported cfg₁ g tool reason = ([], [Event.toolRecovery tool]))
    ∧ (∀ t, f recoverySystemPrompt
          (recoveryUserMessage (g.drop (g.length - 1000)) reason) = .ok t →
        handleUnsupported cfg₁ g tool reason
          = (' ' :: t, [Event.toolRecovery tool, Event.toolRecoveryCompleted tool]))
    ∧ (emittedText (runChunks ⟨[(str "a", str "P")], none⟩ initState
          [str "<tool-unsupported tool=\"graph\" reason=\"too complex\"/>"]).2.1 = []
      ∧ (runChunks ⟨[(str "a", str "P")], none⟩ initState
          [str "<tool-unsupported tool=\"graph\" reason=\"too complex\"/>"]).2.2
          = [Event.toolRecovery (str "graph")]
      ∧ render (runChunks ⟨[(str "a", str "P")], none⟩ initState
          [str "<tool-unsupported tool=\"graph\" reason=\"too complex\"/>"]).2.1
          = noVizMessage (str "too complex"))
    ∧ (emittedText (runChunks ⟨[(str "a", str "P")], some (fun _ _ => .err (str "boom"))⟩
          initState
          [str "<tool-unsupported tool=\"graph\" reason=\"too complex\"/>"]).2.1 = []
      ∧ render (runChunks ⟨[(str "a", str "P")], some (fun _ _ => .err (str "boom"))⟩
          initState
          [str "<tool-unsupported tool=\"graph\" reason=\"too complex\"/>"]).2.1 = []
      ∧ (runChunks ⟨[(str "a", str "P")], some (fun _ _ => .err (str "boom"))⟩
          initState
          [str "<tool-unsupported tool=\"graph\" reason=\"too complex\"/>"]).2.2
          = [Event.toolRecovery (str "graph")]) := by
  refine ⟨⟨?_, ?_⟩, ?_, ?_, ⟨rfl, rfl, rfl⟩, ⟨rfl, rfl, rfl⟩⟩
  · unfold handleUnsupported; rw [h₀]
  · simp [noVizMessage, str]
  · intro e hf; unfold handleUnsupported; rw [h₁]; simp [hf]
  · intro t hf; unfold handleUnsupported; rw [h₁]; simp [hf]

theorem unsupported_recovery_protocol_witness :
    handleUnsupported ⟨[], none⟩ [] (str "g") (str "r")
        = (noVizMessage (str "r"), [Event.toolRecovery (str "g")])
    ∧ handleUnsupported ⟨[], some (fun _ _ => LLMResult.err [])⟩ [] (str "g") (str "r")
        = ([], [Event.toolRecovery (str "g")])
    ∧ handleUnsupported ⟨[], some (fun _ _ => LLMResult.ok (str "T"))⟩ [] (str "g") (str "r")
        = (' ' :: str "T",
           [Event.toolRecovery (str "g"), Event.toolRecoveryCompleted (str "g")]) :=
  ⟨(unsupported_recovery_protocol ⟨[], none⟩ ⟨[], some (fun _ _ => LLMResult.err [])⟩
      (fun _ _ => LLMResult.err []) [] (str "g") (str "r") rfl rfl).1.1,
   (unsupported_recovery_protocol ⟨[], none⟩ ⟨[], some (fun _ _ => LLMResult.err [])⟩
      (fun _ _ => LLMResult.err []) [] (str "g") (str "r") rfl rfl).2.1 [] rfl,
   (unsupported_recovery_protocol ⟨[], none⟩ ⟨[], some (fun _ _ => LLMResult.ok (str "T"))⟩
      (fun _ _ => LLMResult.ok (str "T")) [] (str "g") (str "r") rfl rfl).2.2.1
     (str "T") rfl⟩

/-! ## Search lemmas -/

theorem searchFirst_eq_none_iff (f : Str → Option α) (s : Str) :
    searchFirst f s = none ↔ ∀ q, f (s.drop q) = none := by
  induction s with
  | nil => simp [searchFirst, Option.map_eq_none']
  | cons c t ih =>
    simp only [searchFirst]
    cases hf : f (c :: t) with
    | some a =>
      constructor
      · intro h; cases h
      · intro h; have h0 := h 0; rw [List.drop_zero, hf] at h0; cases h0
    | none =>
      rw [Option.map_eq_none', ih]
      constructor
      · intro h q
        cases q with
        | zero => simpa using hf
        | succ q' => simpa using h q'
      · intro h q; simpa using h (q + 1)

theorem searchFirst_eq_some_spec (f : Str → Option α) (s : Str) (q : Nat) (a : α)
    (h : searchFirst f s = some (q, a)) : f (s.drop q) = some a := by
  induction s generalizing q with
  | nil =>
    simp only [searchFirst] at h
    cases hf : f [] with
    | none => rw [hf] at h; cases h
    | some b =>
      rw [hf] at h
      simp only [Option.map_some', Option.some.injEq, Prod.mk.injEq] at h
      obtain ⟨h1, h2⟩ := h
      subst h1; subst h2; simpa using hf
  | cons c t ih =>
    simp only [searchFirst] at h
    cases hf : f (c :: t) with
    | some b =>
      rw [hf] at h
      simp only [Option.some.injEq, Prod.mk.injEq] at h
      obtain ⟨h1, h2⟩ := h
      subst h1; subst h2; simpa using hf
    | none =>
      rw [hf] at h
      cases hrec : searchFirst f t with
      | none => rw [hrec] at h; cases h
      | some p =>
        obtain ⟨q1, a1⟩ := p
        rw [hrec] at h
        simp only [Option.map_some', Option.some.injEq, Prod.mk.injEq] at h
        obtain ⟨h1, h2⟩ := h
        subst h2
        cases q with
        | zero => exact absurd h1 (Nat.succ_ne_zero q1)
        | succ q' =>
          have hq : q1 = q' := by omega
          rw [List.drop_succ_cons, ← hq]
          exact ih q1 hrec

theorem searchUnsupported_eq_none_iff (s : Str) :
    searchUnsupported s = none ↔ ∀ q, matchUnsupportedAt (s.drop q) = none := by
  rw [searchUnsupported, Option.map_eq_none', searchFirst_eq_none_iff]

theorem searchMarker_eq_none_iff (cmds : List Str) (s : Str) :
    searchMarker cmds s = none ↔ ∀ q, matchMarkerAt cmds (s.drop q) = none := by
  rw [searchMarker, Option.map_eq_none', searchFirst_eq_none_iff]

theorem searchUnsupported_drop_none {s : Str} (h : searchUnsupported s = none)
    (k : Nat) : searchUnsupported (s.drop k) = none := by
  rw [searchUnsupported_eq_none_iff] at h ⊢
  intro q
  rw [List.drop_drop]
  exact h _

theorem searchMarker_drop_none {cmds : List Str} {s : Str}
    (h : searchMarker cmds s = none) (k : Nat) :
    searchMarker cmds (s.drop k) = none := by
  rw [searchMarker_eq_none_iff] at h ⊢
  intro q
  rw [List.drop_drop]
  exact h _

/-! ### Match length bounds -/

theorem ciPrefAt_length {pat s : Str} (h : ciPrefAt pat s = true) :
    pat.length ≤ s.length := by
  induction pat generalizing s with
  | nil => simp
  | cons a as ih =>
    cases s with
    | nil => cases h
    | cons b bs =>
      simp only [ciPrefAt, Bool.and_eq_true] at h
      simpa using ih h.2

theorem ciDrop_some {pat s r : Str} (h : ciDrop pat s = some r) :
    ciPrefAt pat s = true ∧ r = s.drop pat.length := by
  unfold ciDrop at h
  split at h
  · exact ⟨by assumption, by injection h with h'; exact h'.symm⟩
  · cases h

theorem ciDrop_length {pat s r : Str} (h : ciDrop pat s = some r) :
    r.length ≤ s.length := by
  obtain ⟨-, h2⟩ := ciDrop_some h
  subst h2
  simp [List.length_drop]

theorem ciDrop_length_lt {pat s r : Str} (h : ciDrop pat s = some r)
    (hp : pat ≠ []) : r.length < s.length := by
  obtain ⟨h1, h2⟩ := ciDrop_some h
  have := ciPrefAt_length h1
  subst h2
  cases pat with
  | nil => exact absurd rfl hp
  | cons a as => simp only [List.length_drop, List.length_cons] at *; omega

theorem dropWhile_length_le (p : Char → Bool) (s : Str) :
    (s.dropWhile p).length ≤ s.length :=
  (List.dropWhile_suffix p).length_le

theorem wsPlus_length {s r : Str} (h : wsPlus s = some r) : r.length < s.length := by
  unfold wsPlus at h
  split at h
  · rename_i c t
    split at h
    · injection h with h'
      subst h'
      have := dropWhile_length_le isPySpace t
      simp only [List.length_cons]
      omega
    · cases h
  · cases h

theorem quotedCapture_length {s cap r : Str} (h : quotedCapture s = some (cap, r)) :
    r.length < s.length := by
  unfold quotedCapture at h
  split at h
  · cases h
  · split at h
    · rename_i t heq
      simp only [Option.some.injEq, Prod.mk.injEq] at h
      obtain ⟨-, h2⟩ := h
      have hlen := congrArg List.length heq
      rw [List.length_drop] at hlen
      simp only [List.length_cons] at hlen
      rw [← h2]
      omega
    · cases h

theorem matchUnsupportedAt_rest_length {s tool reason rest : Str}
    (h : matchUnsupportedAt s = some (tool, reason, rest)) :
    rest.length < s.length := by
  unfold matchUnsupportedAt at h
  cases h1 : ciDrop (str "<tool-unsupported") s with
  | none => simp only [h1] at h; exact Option.noConfusion h
  | some s1 =>
    simp only [h1] at h
    cases h2 : wsPlus s1 with
    | none => simp only [h2] at h; exact Option.noConfusion h
    | some s2 =>
      simp only [h2] at h
      cases h3 : ciDrop (str "tool=\"") s2 with
      | none => simp only [h3] at h; exact Option.noConfusion h
      | some s3 =>
        simp only [h3] at h
        cases h4 : quotedCapture s3 with
        | none => simp only [h4] at h; exact Option.noConfusion h
        | some p4 =>
          obtain ⟨tl, s4⟩ := p4
          simp only [h4] at h
          cases h5 : wsPlus s4 with
          | none => simp only [h5] at h; exact Option.noConfusion h
          | some s5 =>
            simp only [h5] at h
            cases h6 : ciDrop (str "reason=\"") s5 with
            | none => simp only [h6] at h; exact Option.noConfusion h
            | some s6 =>
              simp only [h6] at h
              cases h7 : quotedCapture s6 with
              | none => simp only [h7] at h; exact Option.noConfusion h
              | some p7 =>
                obtain ⟨rs, s7⟩ := p7
                simp only [h7] at h
                have hrest : rest.length < (s7.dropWhile isPySpace).length := by
                  split at h
                  · rename_i rest' heq
                    simp only [Option.some.injEq, Prod.mk.injEq] at h
                    obtain ⟨-, -, h3'⟩ := h
                    subst h3'
                    have hlen := congrArg List.length heq
                    simp only [List.length_cons] at hlen
                    omega
                  · rename_i rest' heq
                    simp only [Option.some.injEq, Prod.mk.injEq] at h
                    obtain ⟨-, -, h3'⟩ := h
                    subst h3'
                    have hlen := congrArg List.length heq
                    simp only [List.length_cons] at hlen
                    omega
                  · cases h
                have c7 := dropWhile_length_le isPySpace s7
                have c6 := quotedCapture_length h7
                have c5 := ciDrop_length h6
                have c4 := wsPlus_length h5
                have c3 := quotedCapture_length h4
                have c2 := ciDrop_length h3
                have c1 := wsPlus_length h2
                have c0 := ciDrop_length h1
                omega

theorem matchMarkerAt_rest_length {cmds : List Str} {s cmd content rest : Str}
    (h : matchMarkerAt cmds s = some (cmd, content, rest)) :
    rest.length < s.length := by
  obtain ⟨c, -, hc⟩ := List.exists_of_findSome?_eq_some h
  simp only at hc
  split at hc
  · rename_i hopen
    split at hc
    · rename_i j u heq
      simp only [Option.some.injEq, Prod.mk.injEq] at hc
      obtain ⟨-, -, h3'⟩ := hc
      have hlen := ciPrefAt_length hopen
      rw [← h3']
      simp only [List.drop_drop, List.length_drop, List.length_cons,
        List.length_append] at *
      omega
    · cases hc
  · cases hc

theorem searchUnsupported_rest_length {s : Str} {u : UMatch}
    (h : searchUnsupported s = some u) : u.rest.length < s.length := by
  unfold searchUnsupported at h
  cases hsf : searchFirst matchUnsupportedAt s with
  | none => rw [hsf] at h; cases h
  | some p =>
    rw [hsf] at h
    injection h with h'
    obtain ⟨q, tool, reason, rest⟩ := p
    have hm := searchFirst_eq_some_spec _ _ _ _ hsf
    have := matchUnsupportedAt_rest_length hm
    have hd : (s.drop q).length ≤ s.length := by simp [List.length_drop]
    have hu : u.rest = rest := by rw [← h']
    rw [hu]
    omega

theorem searchMarker_rest_length {cmds : List Str} {s : Str} {m : MMatch}
    (h : searchMarker cmds s = some m) : m.rest.length < s.length := by
  unfold searchMarker at h
  cases hsf : searchFirst (matchMarkerAt cmds) s with
  | none => rw [hsf] at h; cases h
  | some p =>
    rw [hsf] at h
    injection h with h'
    obtain ⟨q, cmd, content, rest⟩ := p
    have hm := searchFirst_eq_some_spec _ _ _ _ hsf
    have := matchMarkerAt_rest_length hm
    have hd : (s.drop q).length ≤ s.length := by simp [List.length_drop]
    have hu : m.rest = rest := by rw [← h']
    rw [hu]
    omega

theorem matchMarkerAt_nil (cmds : List Str) : matchMarkerAt cmds [] = none := by
  rw [matchMarkerAt, List.findSome?_eq_none_iff]
  intro c _
  rfl

theorem searchUnsupported_nil : searchUnsupported [] = none := rfl

theorem searchMarker_nil (cmds : List Str) : searchMarker cmds [] = none := by
  rw [searchMarker, searchFirst, matchMarkerAt_nil]
  rfl

/-! ## C3: the buffer never holds a complete marker at rest -/

theorem processLoop_no_match (cfg : Config) (fuel : Nat) :
    ∀ buf gen, buf.length < fuel →
      searchUnsupported (processLoop cfg fuel buf gen).1 = none
      ∧ searchMarker cfg.commands (processLoop cfg fuel buf gen).1 = none := by
  induction fuel with
  | zero => intro buf gen h; exact absurd h (Nat.not_lt_zero _)
  | succ n ih =>
    intro buf gen hlen
    unfold processLoop
    cases hu : searchUnsupported buf with
    | none =>
      cases hm : searchMarker cfg.commands buf with
      | none =>
        exact ⟨searchUnsupported_drop_none hu _, searchMarker_drop_none hm _⟩
      | some m =>
        exact ih m.rest _
          (Nat.lt_of_lt_of_le (searchMarker_rest_length hm) (Nat.lt_succ_iff.mp hlen))
    | some u =>
      cases hm : searchMarker cfg.commands buf with
      | none =>
        exact ih u.rest _
          (Nat.lt_of_lt_of_le (searchUnsupported_rest_length hu) (Nat.lt_succ_iff.mp hlen))
      | some m =>
        simp only []
        split
        · exact ih u.rest _
            (Nat.lt_of_lt_of_le (searchUnsupported_rest_length hu) (Nat.lt_succ_iff.mp hlen))
        · exact ih m.rest _
            (Nat.lt_of_lt_of_le (searchMarker_rest_length hm) (Nat.lt_succ_iff.mp hlen))

theorem processChunk_no_match (cfg : Config) (st : ExecState) (chunk : Str) :
    searchUnsupported (processChunk cfg st chunk).1.buffer = none
    ∧ searchMarker cfg.commands (processChunk cfg st chunk).1.buffer = none := by
  unfold processChunk
  cases hp : cfg.prompts with
  | nil =>
    simp only [hp]
    cases hu : searchUnsupported (st.buffer ++ chunk) with
    | none => exact ⟨searchUnsupported_nil, searchMarker_nil _⟩
    | some u => exact ⟨searchUnsupported_nil, searchMarker_nil _⟩
  | cons a l =>
    simp only [hp]
    exact processLoop_no_match cfg _ _ _ (Nat.lt_succ_self _)

theorem runChunks_fst_nil (cfg : Config) (st : ExecState) :
    (runChunks cfg st []).1 = st := rfl

theorem runChunks_fst_cons (cfg : Config) (st : ExecState) (c : Str) (cs : List Str) :
    (runChunks cfg st (c :: cs)).1 = (runChunks cfg (processChunk cfg st c).1 cs).1 := rfl

theorem runChunks_no_match (cfg : Config) (chunks : List Str) :
    ∀ st : ExecState, chunks ≠ [] →
      searchUnsupported (runChunks cfg st chunks).1.buffer = none
      ∧ searchMarker cfg.commands (runChunks cfg st chunks).1.buffer = none := by
  induction chunks with
  | nil => intro st h; exact absurd rfl h
  | cons c cs ih =>
    intro st _
    rw [runChunks_fst_cons]
    cases hcs : cs with
    | nil => rw [runChunks_fst_nil]; exact processChunk_no_match cfg st c
    | cons c' cs' =>
      rw [← hcs]
      exact ih _ (by simp [hcs])

/-! ## Extension lemmas: a match at the start of a string survives
appending more text (needed to transfer "no marker in S" down to the
prefixes of suffixes of S that arise as buffers). -/

theorem ciPrefAt_append {pat w : Str} (h : ciPrefAt pat w = true) (e : Str) :
    ciPrefAt pat (w ++ e) = true := by
  induction pat generalizing w with
  | nil => rfl
  | cons a as ih =>
    cases w with
    | nil => cases h
    | cons b bs =>
      simp only [List.cons_append, ciPrefAt, Bool.and_eq_true] at h ⊢
      exact ⟨h.1, ih h.2⟩

theorem ciDrop_append {pat w r : Str} (h : ciDrop pat w = some r) (e : Str) :
    ciDrop pat (w ++ e) = some (r ++ e) := by
  obtain ⟨h1, h2⟩ := ciDrop_some h
  unfold ciDrop
  rw [if_pos (ciPrefAt_append h1 e),
    List.drop_append_of_le_length (ciPrefAt_length h1), ← h2]

theorem ciDrop_arg_ne_nil {pat s r : Str} (h : ciDrop pat s = some r)
    (hp : pat ≠ []) : s ≠ [] := by
  intro h0
  subst h0
  obtain ⟨h1, -⟩ := ciDrop_some h
  cases pat with
  | nil => exact hp rfl
  | cons a as => cases h1

theorem wsPlus_some_spec {s r : Str} (h : wsPlus s = some r) :
    ∃ c t, s = c :: t ∧ isPySpace c = true ∧ r = t.dropWhile isPySpace := by
  unfold wsPlus at h
  split at h
  · rename_i c t
    split at h
    · injection h with h'
      exact ⟨c, t, rfl, by assumption, h'.symm⟩
    · cases h
  · cases h

theorem wsPlus_append {s r : Str} (h : wsPlus s = some r) (hr : r ≠ []) (e : Str) :
    wsPlus (s ++ e) = some (r ++ e) := by
  obtain ⟨c, t, rfl, hc, rfl⟩ := wsPlus_some_spec h
  simp only [List.cons_append, wsPlus, hc, if_pos]
  rw [List.dropWhile_append]
  have : (t.dropWhile isPySpace).isEmpty = false := by
    cases hdw : t.dropWhile isPySpace with
    | nil => exact absurd hdw hr
    | cons x xs => rfl
  rw [this]
  simp

theorem quotedCapture_some_spec {s cap r : Str} (h : quotedCapture s = some (cap, r)) :
    cap = s.takeWhile (fun x => decide (x ≠ '"')) ∧ cap ≠ []
      ∧ s.drop cap.length = '"' :: r := by
  unfold quotedCapture at h
  split at h
  · cases h
  · rename_i hne
    split at h
    · rename_i t heq
      simp only [Option.some.injEq, Prod.mk.injEq] at h
      obtain ⟨h1, h2⟩ := h
      refine ⟨h1.symm, ?_, ?_⟩
      · rw [← h1]; exact hne
      · rw [← h1, heq, h2]
    · cases h

theorem quotedCapture_append {s cap r : Str} (h : quotedCapture s = some (cap, r))
    (e : Str) : quotedCapture (s ++ e) = some (cap, r ++ e) := by
  obtain ⟨h1, h2, h3⟩ := quotedCapture_some_spec h
  have hlt : cap.length < s.length := by
    have := congrArg List.length h3
    rw [List.length_drop] at this
    simp only [List.length_cons] at this
    omega
  have htw : (s ++ e).takeWhile (fun x => decide (x ≠ '"')) = cap := by
    rw [List.takeWhile_append, if_neg]
    · exact h1.symm
    · rw [← h1]; omega
  unfold quotedCapture
  rw [htw, if_neg h2, List.drop_append_of_le_length (Nat.le_of_lt hlt), h3]
  rfl

theorem matchUnsupportedAt_extend {w tool reason rest : Str} (e : Str)
    (h : matchUnsupportedAt w = some (tool, reason, rest)) :
    matchUnsupportedAt (w ++ e) = some (tool, reason, rest ++ e) := by
  unfold matchUnsupportedAt at h ⊢
  cases h1 : ciDrop (str "<tool-unsupported") w with
  | none => simp only [h1] at h; exact Option.noConfusion h
  | some s1 =>
    simp only [h1] at h
    cases h2 : wsPlus s1 with
    | none => simp only [h2] at h; exact Option.noConfusion h
    | some s2 =>
      simp only [h2] at h
      cases h3 : ciDrop (str "tool=\"") s2 with
      | none => simp only [h3] at h; exact Option.noConfusion h
      | some s3 =>
        simp only [h3] at h
        have hs2 : s2 ≠ [] := ciDrop_arg_ne_nil h3 (by simp [str])
        cases h4 : quotedCapture s3 with
        | none => simp only [h4] at h; exact Option.noConfusion h
        | some p4 =>
          obtain ⟨tl, s4⟩ := p4
          simp only [h4] at h
          cases h5 : wsPlus s4 with
          | none => simp only [h5] at h; exact Option.noConfusion h
          | some s5 =>
            simp only [h5] at h
            cases h6 : ciDrop (str "reason=\"") s5 with
            | none => simp only [h6] at h; exact Option.noConfusion h
            | some s6 =>
              simp only [h6] at h
              have hs5 : s5 ≠ [] := ciDrop_arg_ne_nil h6 (by simp [str])
              cases h7 : quotedCapture s6 with
              | none => simp only [h7] at h; exact Option.noConfusion h
              | some p7 =>
                obtain ⟨rs, s7⟩ := p7
                simp only [h7] at h
                split at h
                · rename_i rest' heq
                  simp only [Option.some.injEq, Prod.mk.injEq] at h
                  obtain ⟨ha, hb, hc⟩ := h
                  subst ha; subst hb; subst hc
                  simp only [ciDrop_append h1 e, wsPlus_append h2 hs2 e,
                    ciDrop_append h3 e, quotedCapture_append h4 e,
                    wsPlus_append h5 hs5 e, ciDrop_append h6 e,
                    quotedCapture_append h7 e, List.dropWhile_append, heq]
                  simp
                · rename_i rest' heq
                  simp only [Option.some.injEq, Prod.mk.injEq] at h
                  obtain ⟨ha, hb, hc⟩ := h
                  subst ha; subst hb; subst hc
                  simp only [ciDrop_append h1 e, wsPlus_append h2 hs2 e,
                    ciDrop_append h3 e, quotedCapture_append h4 e,
                    wsPlus_append h5 hs5 e, ciDrop_append h6 e,
                    quotedCapture_append h7 e, List.dropWhile_append, heq]
                  simp
                · exact Option.noConfusion h

theorem searchFirst_some_matcher_ne_nil {f : Str → Option α} {s : Str} {q : Nat}
    {a : α} (hnil : f [] = none) (h : searchFirst f s = some (q, a)) :
    q < s.length := by
  have hm := searchFirst_eq_some_spec f s q a h
  by_contra hq
  rw [List.drop_eq_nil_iff.mpr (by omega)] at hm
  rw [hnil] at hm
  exact Option.noConfusion hm

theorem matchMarkerAt_extend {cmds : List Str} {w : Str} (e : Str)
    (h : matchMarkerAt cmds w ≠ none) : matchMarkerAt cmds (w ++ e) ≠ none := by
  cases hw : matchMarkerAt cmds w with
  | none => exact absurd hw h
  | some x =>
    obtain ⟨c, hcmem, hc⟩ := List.exists_of_findSome?_eq_some hw
    simp only at hc
    intro hnone
    rw [matchMarkerAt, List.findSome?_eq_none_iff] at hnone
    have hce := hnone c hcmem
    simp only at hce
    split at hc
    · rename_i hopen
      rw [if_pos (ciPrefAt_append hopen e)] at hce
      split at hc
      · rename_i j u heq
        have hj := searchFirst_eq_some_spec _ _ _ _ heq
        have hjm : ciPrefAt ('<' :: '/' :: (c ++ ['>'])) ((w.drop (('<' :: (c ++ ['>'])).length)).drop j) = true := by
          by_cases hp : ciPrefAt ('<' :: '/' :: (c ++ ['>'])) ((w.drop (('<' :: (c ++ ['>'])).length)).drop j) = true
          · exact hp
          · rw [if_neg hp] at hj; exact Option.noConfusion hj
        have hql : j < (w.drop (('<' :: (c ++ ['>'])).length)).length := by
          refine searchFirst_some_matcher_ne_nil ?_ heq
          rfl
        rw [List.drop_append_of_le_length (ciPrefAt_length hopen)] at hce
        cases hsf : searchFirst
            (fun t => if ciPrefAt ('<' :: '/' :: (c ++ ['>'])) t = true then some () else none)
            (w.drop (('<' :: (c ++ ['>'])).length) ++ e) with
        | some p => rw [hsf] at hce; exact Option.noConfusion hce
        | none =>
          rw [searchFirst_eq_none_iff] at hsf
          have := hsf j
          rw [List.drop_append_of_le_length (Nat.le_of_lt hql),
            if_pos (ciPrefAt_append hjm e)] at this
          exact Option.noConfusion this
      · exact Option.noConfusion hc
    · exact Option.noConfusion hc

/-- No match anywhere in `w ++ e` implies no match anywhere in `w`. -/
theorem searchUnsupported_append_none {w e : Str}
    (h : searchUnsupported (w ++ e) = none) : searchUnsupported w = none := by
  rw [searchUnsupported_eq_none_iff] at h ⊢
  intro q
  cases hx : matchUnsupportedAt (w.drop q) with
  | none => rfl
  | some x =>
    obtain ⟨t, r, rest⟩ := x
    have hne : w.drop q ≠ [] := by
      intro h0
      rw [h0] at hx
      exact Option.noConfusion hx
    have hq : q ≤ w.length := by
      by_contra hq
      exact hne (List.drop_eq_nil_iff.mpr (by omega))
    have := matchUnsupportedAt_extend e hx
    rw [← List.drop_append_of_le_length hq] at this
    rw [h q] at this
    exact Option.noConfusion this

theorem searchMarker_append_none {cmds : List Str} {w e : Str}
    (h : searchMarker cmds (w ++ e) = none) : searchMarker cmds w = none := by
  rw [searchMarker_eq_none_iff] at h ⊢
  intro q
  cases hx : matchMarkerAt cmds (w.drop q) with
  | none => rfl
  | some x =>
    have hne : w.drop q ≠ [] := by
      intro h0
      rw [h0, matchMarkerAt_nil] at hx
      exact Option.noConfusion hx
    have hq : q ≤ w.length := by
      by_contra hq
      exact hne (List.drop_eq_nil_iff.mpr (by omega))
    have hext := @matchMarkerAt_extend cmds (w.drop q) e
      (by rw [hx]; exact fun hc => Option.noConfusion hc)
    rw [← List.drop_append_of_le_length hq] at hext
    exact (hext (h q)).elim

/-- C3: for every tool configuration and every chunk sequence, at every
return of `process_chunk` the internal buffer contains no complete
command marker and no complete unsupported marker (the searches that
drive marker consumption both fail on the buffer at rest). -/
theorem buffer_no_complete_marker_at_rest (cfg : Config) (chunks : List Str) :
    searchUnsupported (runChunks cfg initState chunks).1.buffer = none
    ∧ searchMarker cfg.commands (runChunks cfg initState chunks).1.buffer = none := by
  cases chunks with
  | nil => exact ⟨searchUnsupported_nil, searchMarker_nil _⟩
  | cons c cs => exact runChunks_no_match cfg (c :: cs) initState (by simp)

/-! ## C2: pass-through for marker-free streams -/

theorem runChunks_snd_cons (cfg : Config) (st : ExecState) (c : Str) (cs : List Str) :
    (runChunks cfg st (c :: cs)).2.1
        = (processChunk cfg st c).2.1
          ++ (runChunks cfg (processChunk cfg st c).1 cs).2.1
    ∧ (runChunks cfg st (c :: cs)).2.2
        = (processChunk cfg st c).2.2
          ++ (runChunks cfg (processChunk cfg st c).1 cs).2.2 :=
  ⟨rfl, rfl⟩

theorem processLoop_pass (cfg : Config) (fuel : Nat) (buf gen : Str)
    (hfuel : 0 < fuel) (hu : searchUnsupported buf = none)
    (hm : searchMarker cfg.commands buf = none) :
    processLoop cfg fuel buf gen
      = (buf.drop (elseKeepPos cfg buf), gen ++ buf.take (elseKeepPos cfg buf),
         [Item.text (buf.take (elseKeepPos cfg buf))], []) := by
  cases fuel with
  | zero => exact absurd hfuel (by omega)
  | succ n =>
    unfold processLoop
    simp [hu, hm]

theorem processChunk_pass (cfg : Config) (st : ExecState) (chunk : Str)
    (hu : searchUnsupported (st.buffer ++ chunk) = none)
    (hm : searchMarker cfg.commands (st.buffer ++ chunk) = none)
    (hnil : cfg.prompts = [] → st.buffer = []) :
    render (processChunk cfg st chunk).2.1 ++ (processChunk cfg st chunk).1.buffer
        = st.buffer ++ chunk
    ∧ (processChunk cfg st chunk).2.2 = []
    ∧ (cfg.prompts = [] → (processChunk cfg st chunk).1.buffer = []) := by
  unfold processChunk
  cases hp : cfg.prompts with
  | nil =>
    have hb := hnil hp
    simp only [hp, hb, List.nil_append] at hu ⊢
    simp [hu, render, Item.payload]
  | cons a l =>
    simp only [hp]
    rw [processLoop_pass cfg _ _ _ (Nat.succ_pos _) hu hm]
    refine ⟨?_, rfl, ?_⟩
    · simp [render, Item.payload, List.take_append_drop]
    · intro habs
      exact List.noConfusion habs

theorem runChunks_pass (cfg : Config) (chunks : List Str) :
    ∀ st : ExecState, (cfg.prompts = [] → st.buffer = []) →
      searchUnsupported (st.buffer ++ chunks.flatten) = none →
      searchMarker cfg.commands (st.buffer ++ chunks.flatten) = none →
      render (runChunks cfg st chunks).2.1 ++ (runChunks cfg st chunks).1.buffer
          = st.buffer ++ chunks.flatten
      ∧ (runChunks cfg st chunks).2.2 = []
      ∧ (cfg.prompts = [] → (runChunks cfg st chunks).1.buffer = []) := by
  induction chunks with
  | nil =>
    intro st h0 hu hm
    refine ⟨?_, rfl, h0⟩
    simp [runChunks, render]
  | cons c cs ih =>
    intro st h0 hu hm
    have hflat : st.buffer ++ (c :: cs).flatten = (st.buffer ++ c) ++ cs.flatten := by
      simp [List.append_assoc]
    have hu1 : searchUnsupported (st.buffer ++ c) = none := by
      apply @searchUnsupported_append_none (st.buffer ++ c) cs.flatten
      rw [← hflat]; exact hu
    have hm1 : searchMarker cfg.commands (st.buffer ++ c) = none := by
      apply @searchMarker_append_none cfg.commands (st.buffer ++ c) cs.flatten
      rw [← hflat]; exact hm
    obtain ⟨e1, e2, e3⟩ := processChunk_pass cfg st c hu1 hm1 h0
    set st1 := (processChunk cfg st c).1 with hst1
    have hsuffix : st1.buffer ++ cs.flatten
        = (st.buffer ++ (c :: cs).flatten).drop
            (render (processChunk cfg st c).2.1).length := by
      rw [hflat, ← e1, List.append_assoc]
      exact (List.drop_left' rfl).symm
    have hu2 : searchUnsupported (st1.buffer ++ cs.flatten) = none := by
      rw [hsuffix]; exact searchUnsupported_drop_none hu _
    have hm2 : searchMarker cfg.commands (st1.buffer ++ cs.flatten) = none := by
      rw [hsuffix]; exact searchMarker_drop_none hm _
    obtain ⟨f1, f2, f3⟩ := ih st1 e3 hu2 hm2
    obtain ⟨hc1, hc2⟩ := runChunks_snd_cons cfg st c cs
    refine ⟨?_, ?_, ?_⟩
    · rw [hc1, runChunks_fst_cons, render_append, List.append_assoc, f1, hflat, ← e1,
        List.append_assoc]
    · rw [hc2, e2, f2]; rfl
    · intro hp; rw [runChunks_fst_cons]; exact f3 hp

/-- C2, counterexample to the claim as stated: with active set `{a}`,
the one-chunk stream `"<"` contains zero complete markers (both searches
fail on it), yet the concatenated `process_chunk` returns are empty —
the `"<"` is retained in the buffer as a possible marker head, so the
concatenated outputs do not equal the input without `flush`. -/
theorem pass_through_needs_flush_cex :
    searchUnsupported (str "<") = none
    ∧ searchMarker [str "a"] (str "<") = none
    ∧ render (runChunks ⟨[(str "a", str "P")], none⟩ initState [str "<"]).2.1 = []
    ∧ str "<" ≠ [] :=
  ⟨rfl, rfl, rfl, by simp [str]⟩

/-- C2, amended: for every tool set and every chunk sequence whose
concatenation `S` contains zero markers (no complete command-marker
match and no complete unsupported-marker match anywhere in `S`), the
concatenation of all `process_chunk` returns *followed by the `flush()`
residue* equals `S`, and no nested tool call or recovery is triggered
(no events); in particular, with active set `{A}` and the single chunk
`"see <zzz>x</zzz> here"` (command `zzz` unknown), the `process_chunk`
returns alone already concatenate to the input. -/
theorem pass_through_marker_free (cfg : Config) (chunks : List Str)
    (hu : searchUnsupported chunks.flatten = none)
    (hm : searchMarker cfg.commands chunks.flatten = none) :
    render (runChunks cfg initState chunks).2.1
        ++ (flush (runChunks cfg initState chunks).1).1
      = chunks.flatten
    ∧ (runChunks cfg initState chunks).2.2 = []
    ∧ render (runChunks ⟨[(str "A", str "P")], none⟩ initState
        [str "see <zzz>x</zzz> here"]).2.1 = str "see <zzz>x</zzz> here" := by
  have h0 : cfg.prompts = [] → initState.buffer = [] := fun _ => rfl
  have hu' : searchUnsupported (initState.buffer ++ chunks.flatten) = none := by
    simpa [initState] using hu
  have hm' : searchMarker cfg.commands (initState.buffer ++ chunks.flatten) = none := by
    simpa [initState] using hm
  obtain ⟨e1, e2, -⟩ := runChunks_pass cfg chunks initState h0 hu' hm'
  refine ⟨?_, e2, rfl⟩
  simpa [initState, flush] using e1

/-! ## C1: chunk-boundary invariance of marker detection -/

/-- C1, counterexamples to the claim as stated, one for each of its two
marker kinds.  Command marker: with active set `{a}`, the complete
marker `<a>ctx</a>` whose context is itself a complete unsupported
marker is handled differently when split after the inner `/>`: fed
whole, the command marker wins (position 0 beats 3) and nothing is
emitted as plain text; fed split, the first chunk contains a complete
unsupported marker but no complete command marker, so the text `<a>`
before it is emitted, the recovery path runs, and `</a>` is later
emitted as plain text — the marker is partially emitted and the traces
differ.  Unsupported marker: the complete marker
`<tool-unsupported tool="g" reason="x/>y"/>` whose reason attribute
contains `/>` is handled differently when split after that `/>`: fed
whole, it is removed from the output and recovery runs (the
tool-recovery event fires); fed split, the retention scan finds the
embedded `/>` after the `<tool-unsupported` position, concludes the
partial marker is not worth keeping, and emits the whole marker as
plain text — recovery never runs and no event fires. -/
theorem marker_split_invariance_cex :
    (str "<a><tool-unsupported tool=\"g\" reason=\"r\"/>" ++ str "</a>"
        = mkMarker (str "a") (str "<tool-unsupported tool=\"g\" reason=\"r\"/>")
    ∧ emittedText (runChunks ⟨[(str "a", str "P")], none⟩ initState
        [mkMarker (str "a") (str "<tool-unsupported tool=\"g\" reason=\"r\"/>")]).2.1
        = []
    ∧ emittedText (runChunks ⟨[(str "a", str "P")], none⟩ initState
        [str "<a><tool-unsupported tool=\"g\" reason=\"r\"/>", str "</a>"]).2.1
        = str "<a></a>"
    ∧ str "<a></a>" ≠ [])
    ∧ (str "<tool-unsupported tool=\"g\" reason=\"x/>" ++ str "y\"/>"
        = str "<tool-unsupported tool=\"g\" reason=\"x/>y\"/>"
    ∧ emittedText (runChunks ⟨[(str "a", str "P")], none⟩ initState
        [str "<tool-unsupported tool=\"g\" reason=\"x/>y\"/>"]).2.1 = []
    ∧ (runChunks ⟨[(str "a", str "P")], none⟩ initState
        [str "<tool-unsupported tool=\"g\" reason=\"x/>y\"/>"]).2.2
        = [Event.toolRecovery (str "g")]
    ∧ emittedText (runChunks ⟨[(str "a", str "P")], none⟩ initState
        [str "<tool-unsupported tool=\"g\" reason=\"x/>", str "y\"/>"]).2.1
        = str "<tool-unsupported tool=\"g\" reason=\"x/>y\"/>"
    ∧ (runChunks ⟨[(str "a", str "P")], none⟩ initState
        [str "<tool-unsupported tool=\"g\" reason=\"x/>", str "y\"/>"]).2.2 = []) :=
  ⟨⟨rfl, rfl, rfl, by simp [str]⟩, ⟨rfl, rfl, rfl, rfl, rfl⟩⟩

theorem pass_through_marker_free_witness :
    searchUnsupported (str "see <zzz>x</zzz> here") = none
    ∧ searchMarker [str "A"] (str "see <zzz>x</zzz> here") = none
    ∧ render (runChunks ⟨[(str "A", str "P")], none⟩ initState
          [str "see <zzz>x</zzz> here"]).2.1
        ++ (flush (runChunks ⟨[(str "A", str "P")], none⟩ initState
          [str "see <zzz>x</zzz> here"]).1).1
      = (([str "see <zzz>x</zzz> here"] : List Str)).flatten
    ∧ (runChunks ⟨[(str "A", str "P")], none⟩ initState
          [str "see <zzz>x</zzz> here"]).2.2 = [] :=
  ⟨rfl, rfl,
   (pass_through_marker_free ⟨[(str "A", str "P")], none⟩
      [str "see <zzz>x</zzz> here"] rfl rfl).1,
   (pass_through_marker_free ⟨[(str "A", str "P")], none⟩
      [str "see <zzz>x</zzz> here"] rfl rfl).2.1⟩

/-! ### Character-walking lemmas for the marker-invariance proof -/

theorem ciChar_refl (a : Char) : ciChar a a = true := by simp [ciChar]

theorem ciPrefAt_false_head {p x : Char} {ps r : Str} (h : ciChar p x = false) :
    ciPrefAt (p :: ps) (x :: r) = false := by simp [ciPrefAt, h]

theorem ciPrefAt_self_append (p r : Str) : ciPrefAt p (p ++ r) = true := by
  induction p with
  | nil => rfl
  | cons a as ih => simp [ciPrefAt, ciChar_refl, ih]

theorem ciPrefAt_self (p : Str) : ciPrefAt p p = true := by
  have := ciPrefAt_self_append p []
  simpa using this

theorem isPrefixOf_imp_ciPrefAt {pat s : Str} (h : pat.isPrefixOf s = true) :
    ciPrefAt pat s = true := by
  induction pat generalizing s with
  | nil => rfl
  | cons a as ih =>
    cases s with
    | nil => simp [List.isPrefixOf] at h
    | cons b bs =>
      simp only [List.isPrefixOf, Bool.and_eq_true] at h
      obtain ⟨h1, h2⟩ := h
      have hab : a = b := by simpa using h1
      subst hab
      simp [ciPrefAt, ciChar_refl, ih h2]

theorem noOccur_nil {p : Char} {ps : Str} : noOccur (p :: ps) [] := by
  intro q
  rw [List.drop_nil]
  rfl

theorem noOccur_cons {pat : Str} {x : Char} {s : Str}
    (hx : ciPrefAt pat (x :: s) = false) (hs : noOccur pat s) :
    noOccur pat (x :: s) := by
  intro q
  cases q with
  | zero => simpa using hx
  | succ q' => rw [List.drop_succ_cons]; exact hs q'

theorem noOccur_seg {p : Char} {ps s rest : Str}
    (hchars : ∀ x ∈ s, ciChar p x = false) (hrest : noOccur (p :: ps) rest) :
    noOccur (p :: ps) (s ++ rest) := by
  induction s with
  | nil => simpa using hrest
  | cons x xs ih =>
    rw [List.cons_append]
    exact noOccur_cons (ciPrefAt_false_head (hchars x (by simp)))
      (ih (fun y hy => hchars y (by simp [hy])))

theorem ciPrefAt_append_cons_of_false {pat c : Str} {b : Char} (X : Str)
    (h : ciPrefAt pat c = false) (hb : ∀ p ∈ pat, ciChar p b = false) :
    ciPrefAt pat (c ++ b :: X) = false := by
  induction pat generalizing c with
  | nil => cases h
  | cons p ps ih =>
    cases c with
    | nil =>
      rw [List.nil_append]
      exact ciPrefAt_false_head (hb p (by simp))
    | cons y ys =>
      simp only [List.cons_append, ciPrefAt] at h ⊢
      cases hcy : ciChar p y with
      | false => simp [hcy]
      | true =>
        rw [hcy] at h
        simp only [Bool.true_and] at h
        simp [hcy, ih h (fun q hq => hb q (by simp [hq]))]

theorem noOccurPre_nil {pat rest : Str} : noOccurPre pat [] rest := by
  intro q hq
  simp at hq

theorem noOccurPre_cons {pat : Str} {x : Char} {s rest : Str}
    (hx : ciPrefAt pat (x :: (s ++ rest)) = false) (hs : noOccurPre pat s rest) :
    noOccurPre pat (x :: s) rest := by
  intro q hq
  cases q with
  | zero => simpa using hx
  | succ q' => rw [List.drop_succ_cons]; exact hs q' (by simpa using hq)

theorem noOccurPre_append {pat s1 s2 rest : Str}
    (h1 : noOccurPre pat s1 (s2 ++ rest)) (h2 : noOccurPre pat s2 rest) :
    noOccurPre pat (s1 ++ s2) rest := by
  intro q hq
  by_cases hcase : q < s1.length
  · rw [List.drop_append_of_le_length (Nat.le_of_lt hcase), List.append_assoc]
    exact h1 q hcase
  · push_neg at hcase
    obtain ⟨i, rfl⟩ : ∃ i, q = s1.length + i := ⟨q - s1.length, by omega⟩
    rw [List.drop_append]
    refine h2 i ?_
    rw [List.length_append] at hq
    omega

theorem noOccurPre_seg {p : Char} {ps s rest : Str}
    (hchars : ∀ x ∈ s, ciChar p x = false) : noOccurPre (p :: ps) s rest := by
  induction s with
  | nil => exact noOccurPre_nil
  | cons x xs ih =>
    exact noOccurPre_cons (ciPrefAt_false_head (hchars x (by simp)))
      (ih (fun y hy => hchars y (by simp [hy])))

/-! ### Occurrence structure of a well-formed marker `<c>ctx</c>` -/

theorem unsL_cons : str "<tool-unsupported" = '<' :: str "tool-unsupported" := rfl

theorem unsL_head_close (R : Str) :
    ciPrefAt ('<' :: str "tool-unsupported") ('<' :: '/' :: R) = false := by
  have h1 : ciChar 't' '/' = false := by decide
  rw [show str "tool-unsupported" = 't' :: str "ool-unsupported" from rfl]
  simp [ciPrefAt, h1]

/-- The literal `<tool-unsupported` occurs nowhere in a marker whose
command does not start (case-insensitively) with `tool-unsupported` and
whose command and context are `<`-free. -/
theorem marker_no_unsupported (c ctx : Str)
    (hcl : ∀ x ∈ c, ciChar '<' x = false)
    (hct : ciPrefAt (str "tool-unsupported") c = false)
    (hxl : ∀ x ∈ ctx, ciChar '<' x = false) :
    noOccur (str "<tool-unsupported") (mkMarker c ctx) := by
  have hshape : mkMarker c ctx = '<' :: (c ++ ('>' :: (ctx ++ mkClose c))) := by
    simp [mkMarker, mkOpen, List.append_assoc]
  rw [hshape, unsL_cons]
  have hb : ∀ p ∈ str "tool-unsupported", ciChar p '>' = false := by decide
  refine noOccur_cons ?_ ?_
  · have h2 : ciPrefAt (str "tool-unsupported") (c ++ '>' :: (ctx ++ mkClose c)) = false :=
      ciPrefAt_append_cons_of_false _ hct hb
    simp [ciPrefAt, ciChar_refl, h2]
  · refine noOccur_seg hcl ?_
    refine noOccur_cons (ciPrefAt_false_head (by decide)) ?_
    refine noOccur_seg hxl ?_
    rw [show mkClose c = '<' :: '/' :: (c ++ ['>']) from rfl]
    refine noOccur_cons (unsL_head_close _) ?_
    refine noOccur_cons (ciPrefAt_false_head (by decide)) ?_
    refine noOccur_seg hcl ?_
    exact noOccur_cons (ciPrefAt_false_head (by decide)) noOccur_nil

/-- The closing tag `</c>` has no case-insensitive occurrence starting
inside the `<c>ctx` part of the marker. -/
theorem marker_close_noOccurPre (c ctx : Str) (hc0 : c ≠ [])
    (hcl : ∀ x ∈ c, ciChar '<' x = false)
    (hcs : ∀ x ∈ c, ciChar '/' x = false)
    (hxl : ∀ x ∈ ctx, ciChar '<' x = false) :
    noOccurPre (mkClose c) (mkOpen c ++ ctx) (mkClose c) := by
  have hshape : mkOpen c ++ ctx = '<' :: ((c ++ ['>']) ++ ctx) := by
    simp [mkOpen]
  rw [hshape]
  refine noOccurPre_cons ?_ ?_
  · cases c with
    | nil => exact absurd rfl hc0
    | cons a as =>
      have ha : ciChar '/' a = false := hcs a (by simp)
      rw [show mkClose (a :: as) = '<' :: '/' :: ((a :: as) ++ ['>']) from rfl]
      simp [ciPrefAt, ciChar_refl, List.cons_append, ha]
  · rw [show mkClose c = '<' :: ('/' :: (c ++ ['>'])) from rfl]
    refine noOccurPre_append ?_ (noOccurPre_seg hxl)
    refine noOccurPre_append (noOccurPre_seg hcl) ?_
    exact noOccurPre_cons (ciPrefAt_false_head (by decide)) noOccurPre_nil

/-- Inside the marker, any case-insensitive occurrence of the closing
tag that ends at or before position `k < |marker|` is impossible. -/
theorem marker_close_only_at_end (c ctx : Str) (hc0 : c ≠ [])
    (hcl : ∀ x ∈ c, ciChar '<' x = false)
    (hcs : ∀ x ∈ c, ciChar '/' x = false)
    (hxl : ∀ x ∈ ctx, ciChar '<' x = false)
    (r k : Nat) (hrk : r + (mkClose c).length ≤ k)
    (hk : k < (mkMarker c ctx).length) :
    ciPrefAt (mkClose c) ((mkMarker c ctx).drop r) = false := by
  have hD := marker_close_noOccurPre c ctx hc0 hcl hcs hxl
  have hM : mkMarker c ctx = (mkOpen c ++ ctx) ++ mkClose c := by
    simp [mkMarker, List.append_assoc]
  by_cases hr : r < (mkOpen c ++ ctx).length
  · rw [hM, List.drop_append_of_le_length (Nat.le_of_lt hr)]
    exact hD r hr
  · exfalso
    push_neg at hr
    have hlen : (mkMarker c ctx).length
        = (mkOpen c ++ ctx).length + (mkClose c).length := by
      rw [hM, List.length_append]
    omega

/-! ### Locating the unique match in the complete marker -/

theorem searchFirst_zero {f : Str → Option α} {s : Str} {a : α} (h : f s = some a) :
    searchFirst f s = some (0, a) := by
  cases s with
  | nil => simp [searchFirst, h]
  | cons c t => simp [searchFirst, h]

theorem searchFirst_intro {f : Str → Option α} (s : Str) (q : Nat) (a : α)
    (hq : f (s.drop q) = some a) (hmin : ∀ r, r < q → f (s.drop r) = none) :
    searchFirst f s = some (q, a) := by
  induction s generalizing q with
  | nil =>
    cases q with
    | zero => rw [List.drop_zero] at hq; simp [searchFirst, hq]
    | succ q' =>
      exfalso
      have h0 := hmin 0 (by omega)
      rw [List.drop_nil] at hq
      rw [List.drop_nil] at h0
      rw [h0] at hq
      exact Option.noConfusion hq
  | cons c t ih =>
    cases q with
    | zero =>
      rw [List.drop_zero] at hq
      exact searchFirst_zero hq
    | succ q' =>
      have h0 := hmin 0 (by omega)
      rw [List.drop_zero] at h0
      simp only [searchFirst, h0]
      rw [ih q' (by simpa using hq) (fun r hr => by simpa using hmin (r + 1) (by omega))]
      rfl

theorem drop_head_mem {l : List Char} {r : Nat} (hr : r < l.length) :
    ∃ x xs, l.drop r = x :: xs ∧ x ∈ l := by
  cases hl : l.drop r with
  | nil => exact absurd (List.drop_eq_nil_iff.mp hl) (by omega)
  | cons x xs =>
    refine ⟨x, xs, rfl, ?_⟩
    have : x ∈ l.drop r := by rw [hl]; simp
    exact List.drop_subset r l this

/-- `matchMarkerAt` on the complete well-formed marker: the single
alternative matches at position 0 with content exactly `ctx` and empty
remainder. -/
theorem matchMarkerAt_on_marker (c ctx : Str)
    (hxl : ∀ x ∈ ctx, ciChar '<' x = false) :
    matchMarkerAt [c] (mkMarker c ctx) = some (c, ctx, []) := by
  have hopen : ciPrefAt ('<' :: (c ++ ['>'])) (mkMarker c ctx) = true := by
    rw [show mkMarker c ctx = ('<' :: (c ++ ['>'])) ++ (ctx ++ mkClose c) from rfl]
    exact ciPrefAt_self_append _ _
  have hinner : (mkMarker c ctx).drop (('<' :: (c ++ ['>'])).length)
      = ctx ++ mkClose c := by
    rw [show mkMarker c ctx = ('<' :: (c ++ ['>'])) ++ (ctx ++ mkClose c) from rfl]
    exact List.drop_left _ _
  have hclose : searchFirst
      (fun t => if ciPrefAt ('<' :: '/' :: (c ++ ['>'])) t = true then some () else none)
      (ctx ++ mkClose c) = some (ctx.length, ()) := by
    apply searchFirst_intro
    · rw [List.drop_left' rfl, if_pos]
      rw [show mkClose c = '<' :: '/' :: (c ++ ['>']) from rfl]
      exact ciPrefAt_self _
    · intro r hr
      rw [List.drop_append_of_le_length (Nat.le_of_lt hr)]
      obtain ⟨x, xs, hdr, hxmem⟩ := drop_head_mem hr
      rw [hdr, List.cons_append, if_neg]
      simp [ciPrefAt_false_head (hxl x hxmem)]
  have hg1 : ((mkMarker c ctx).drop 1).take c.length = c := by
    rw [show mkMarker c ctx = '<' :: ((c ++ ['>']) ++ (ctx ++ mkClose c)) from by
      simp [mkMarker, mkOpen, List.append_assoc]]
    rw [List.drop_succ_cons, List.drop_zero, List.append_assoc, List.take_left]
  have hg2 : (ctx ++ mkClose c).take ctx.length = ctx := List.take_left _ _
  have hg3 : ((ctx ++ mkClose c).drop ctx.length).drop
      (('<' :: '/' :: (c ++ ['>'])).length) = [] := by
    rw [List.drop_left' rfl]
    rw [show mkClose c = '<' :: '/' :: (c ++ ['>']) from rfl]
    exact List.drop_length _
  unfold matchMarkerAt
  rw [List.findSome?_cons]
  simp only [hopen, hinner, hclose, if_true, eq_self_iff_true, hg1, hg2, hg3]

theorem searchMarker_on_marker (c ctx : Str)
    (hxl : ∀ x ∈ ctx, ciChar '<' x = false) :
    searchMarker [c] (mkMarker c ctx) = some ⟨0, c, ctx, []⟩ := by
  unfold searchMarker
  rw [searchFirst_zero (matchMarkerAt_on_marker c ctx hxl)]
  rfl

/-! ### The buffer during a split feed is always a prefix of the marker:
no complete match, and the no-match branch retains everything. -/

theorem isPrefixOf_length {pat s : Str} (h : pat.isPrefixOf s = true) :
    pat.length ≤ s.length :=
  (List.isPrefixOf_iff_prefix.mp h).length_le

theorem findSub_eq_none_iff {pat s : Str} :
    findSub pat s = none ↔ ∀ r, pat.isPrefixOf (s.drop r) = false := by
  unfold findSub
  rw [Option.map_eq_none', searchFirst_eq_none_iff]
  constructor
  · intro h r
    have hr := h r
    by_contra hp
    rw [Bool.not_eq_false] at hp
    rw [if_pos hp] at hr
    exact Option.noConfusion hr
  · intro h r
    simp [h r]

theorem findSub_zero {pat s : Str} (h : pat.isPrefixOf s = true) :
    findSub pat s = some 0 := by
  unfold findSub
  rw [searchFirst_zero (show (if pat.isPrefixOf s = true then some () else none) = some ()
    from by rw [if_pos h])]
  rfl

theorem isSuffixOf_nil_false {x : Char} {xs : Str} :
    (x :: xs).isSuffixOf ([] : Str) = false := by
  by_contra h
  rw [Bool.not_eq_false] at h
  have := (List.isSuffixOf_iff_suffix.mp h).length_le
  simp at this

theorem suffix_head_mem {t s : Str} (h : ('<' :: t) <:+ ('<' :: s)) (hne : t ≠ s) :
    '<' ∈ s := by
  obtain ⟨w, hw⟩ := h
  cases w with
  | nil =>
    simp only [List.nil_append, List.cons.injEq] at hw
    exact absurd hw.2 hne
  | cons a w' =>
    simp only [List.cons_append, List.cons.injEq] at hw
    rw [← hw.2]
    simp

theorem find?_range'_first (p : Nat → Bool) (n : Nat) :
    ∀ a k, a ≤ k → k < a + n → p k = true →
      (∀ i, a ≤ i → i < k → p i = false) →
      (List.range' a n).find? p = some k := by
  induction n with
  | zero => intro a k h1 h2 _ _; omega
  | succ m ih =>
    intro a k ha hk hpk hmin
    rw [List.range'_succ, List.find?_cons]
    by_cases hak : a = k
    · subst hak
      simp [hpk]
    · have hpa : p a = false := hmin a le_rfl (by omega)
      simp only [hpa]
      exact ih (a + 1) k (by omega) (by omega) hpk (fun i h1 h2 => hmin i (by omega) h2)

/-- A case-insensitive occurrence inside `w.take k` is an occurrence in
`w` that ends at or before `k`. -/
theorem ciPrefAt_take_drop {pat w : Str} {k r : Nat} (hp : pat ≠ [])
    (h : ciPrefAt pat ((w.take k).drop r) = true) :
    ciPrefAt pat (w.drop r) = true ∧ r + pat.length ≤ k := by
  have hlen := ciPrefAt_length h
  rw [List.drop_take] at h hlen
  constructor
  · have hsplit : w.drop r
        = (w.drop r).take (k - r) ++ (w.drop r).drop (k - r) :=
      (List.take_append_drop _ _).symm
    rw [hsplit]
    exact ciPrefAt_append h _
  · rw [List.length_take] at hlen
    have hp1 : 1 ≤ pat.length := List.length_pos.mpr hp
    omega

theorem searchUnsupported_marker (c ctx : Str)
    (hcl : ∀ x ∈ c, ciChar '<' x = false)
    (hct : ciPrefAt (str "tool-unsupported") c = false)
    (hxl : ∀ x ∈ ctx, ciChar '<' x = false) :
    searchUnsupported (mkMarker c ctx) = none := by
  have hno := marker_no_unsupported c ctx hcl hct hxl
  rw [searchUnsupported_eq_none_iff]
  intro q
  unfold matchUnsupportedAt
  simp [ciDrop, hno q]

theorem searchUnsupported_marker_pref (c ctx : Str)
    (hcl : ∀ x ∈ c, ciChar '<' x = false)
    (hct : ciPrefAt (str "tool-unsupported") c = false)
    (hxl : ∀ x ∈ ctx, ciChar '<' x = false) (k : Nat) :
    searchUnsupported ((mkMarker c ctx).take k) = none := by
  apply @searchUnsupported_append_none ((mkMarker c ctx).take k) ((mkMarker c ctx).drop k)
  rw [List.take_append_drop]
  exact searchUnsupported_marker c ctx hcl hct hxl

/-- No case-insensitive occurrence of the closing tag fits inside a
proper prefix of the marker. -/
theorem no_close_in_take (c ctx : Str) (hc0 : c ≠ [])
    (hcl : ∀ x ∈ c, ciChar '<' x = false)
    (hcs : ∀ x ∈ c, ciChar '/' x = false)
    (hxl : ∀ x ∈ ctx, ciChar '<' x = false)
    (k : Nat) (hk : k < (mkMarker c ctx).length) (r : Nat) :
    ciPrefAt (mkClose c) (((mkMarker c ctx).take k).drop r) = false := by
  by_contra hcc
  rw [Bool.not_eq_false] at hcc
  obtain ⟨hext, hbound⟩ := ciPrefAt_take_drop (by simp [mkClose]) hcc
  have := marker_close_only_at_end c ctx hc0 hcl hcs hxl r k hbound hk
  rw [this] at hext
  exact Bool.noConfusion hext

/-- No occurrence of the `<tool-unsupported` literal fits inside a
prefix of the marker. -/
theorem no_unsL_in_take (c ctx : Str)
    (hcl : ∀ x ∈ c, ciChar '<' x = false)
    (hct : ciPrefAt (str "tool-unsupported") c = false)
    (hxl : ∀ x ∈ ctx, ciChar '<' x = false) (k r : Nat) :
    ciPrefAt (str "<tool-unsupported") (((mkMarker c ctx).take k).drop r) = false := by
  by_contra hcc
  rw [Bool.not_eq_false] at hcc
  obtain ⟨hext, -⟩ := ciPrefAt_take_drop (by rw [unsL_cons]; simp) hcc
  have := marker_no_unsupported c ctx hcl hct hxl r
  rw [this] at hext
  exact Bool.noConfusion hext

theorem searchMarker_marker_proper_pref (c ctx : Str) (hc0 : c ≠ [])
    (hcl : ∀ x ∈ c, ciChar '<' x = false)
    (hcs : ∀ x ∈ c, ciChar '/' x = false)
    (hxl : ∀ x ∈ ctx, ciChar '<' x = false)
    (k : Nat) (hk : k < (mkMarker c ctx).length) :
    searchMarker [c] ((mkMarker c ctx).take k) = none := by
  rw [searchMarker_eq_none_iff]
  intro q
  unfold matchMarkerAt
  rw [List.findSome?_cons]
  by_cases hopen :
      ciPrefAt ('<' :: (c ++ ['>'])) (((mkMarker c ctx).take k).drop q) = true
  · rw [if_pos hopen]
    simp only [List.drop_drop]
    cases hsf : searchFirst
        (fun t => if ciPrefAt ('<' :: '/' :: (c ++ ['>'])) t = true then some () else none)
        ((mkMarker c ctx).take k |>.drop (q + ('<' :: (c ++ ['>'])).length)) with
    | none => simp only [hsf]; rfl
    | some p =>
      exfalso
      obtain ⟨j, hu⟩ := p
      have hj := searchFirst_eq_some_spec _ _ _ _ hsf
      have hcp : ciPrefAt ('<' :: '/' :: (c ++ ['>']))
          ((((mkMarker c ctx).take k).drop (q + ('<' :: (c ++ ['>'])).length)).drop j)
          = true := by
        by_contra hcc
        rw [if_neg hcc] at hj
        exact Option.noConfusion hj
      rw [List.drop_drop] at hcp
      have hnone := no_close_in_take c ctx hc0 hcl hcs hxl k hk
        (q + ('<' :: (c ++ ['>'])).length + j)
      rw [show mkClose c = '<' :: '/' :: (c ++ ['>']) from rfl] at hnone
      rw [hnone] at hcp
      exact Bool.noConfusion hcp
  · rw [if_neg hopen]
    simp

/-! ### On every proper prefix of the marker the `else` branch keeps the
whole buffer: either the opening tag is present without its closing tag
(`inMarkerPos = some 0`) or the buffer is a partial opening tag
(`endRetain` equals its length). -/

theorem commands_pair (c Pr : Str) (llm : Option (Str → Str → LLMResult)) :
    Config.commands ⟨[(c, Pr)], llm⟩ = [c] := rfl

theorem take_marker_big (c ctx : Str) (k : Nat) (hk : (mkOpen c).length ≤ k) :
    (mkMarker c ctx).take k = mkOpen c ++ (ctx ++ mkClose c).take (k - (mkOpen c).length) := by
  obtain ⟨i, rfl⟩ : ∃ i, k = (mkOpen c).length + i := ⟨k - (mkOpen c).length, by omega⟩
  rw [show mkMarker c ctx = mkOpen c ++ (ctx ++ mkClose c) from rfl, List.take_append,
    Nat.add_sub_cancel_left]

theorem inMarkerPos_marker_big (c ctx Pr : Str) (llm : Option (Str → Str → LLMResult))
    (hc0 : c ≠ [])
    (hcl : ∀ x ∈ c, ciChar '<' x = false)
    (hcs : ∀ x ∈ c, ciChar '/' x = false)
    (hct : ciPrefAt (str "tool-unsupported") c = false)
    (hxl : ∀ x ∈ ctx, ciChar '<' x = false)
    (k : Nat) (hk1 : (mkOpen c).length ≤ k) (hk2 : k < (mkMarker c ctx).length) :
    inMarkerPos ⟨[(c, Pr)], llm⟩ ((mkMarker c ctx).take k) = some 0 := by
  have hfsub : findSub ('<' :: (c ++ ['>'])) ((mkMarker c ctx).take k) = some 0 := by
    apply findSub_zero
    rw [take_marker_big c ctx k hk1]
    exact List.isPrefixOf_iff_prefix.mpr (List.prefix_append _ _)
  have hclose : findSubFrom ('<' :: '/' :: (c ++ ['>'])) ((mkMarker c ctx).take k)
      (0 + ('<' :: (c ++ ['>'])).length) = none := by
    unfold findSubFrom
    rw [Option.map_eq_none', findSub_eq_none_iff]
    intro r
    by_contra hp
    rw [Bool.not_eq_false] at hp
    have hci := isPrefixOf_imp_ciPrefAt hp
    rw [List.drop_drop] at hci
    have hnone := no_close_in_take c ctx hc0 hcl hcs hxl k hk2
      (0 + ('<' :: (c ++ ['>'])).length + r)
    rw [show mkClose c = '<' :: '/' :: (c ++ ['>']) from rfl] at hnone
    rw [hnone] at hci
    exact Bool.noConfusion hci
  have huns : findSub (str "<tool-unsupported") ((mkMarker c ctx).take k) = none := by
    rw [findSub_eq_none_iff]
    intro r
    by_contra hp
    rw [Bool.not_eq_false] at hp
    have hci := isPrefixOf_imp_ciPrefAt hp
    have hnone := no_unsL_in_take c ctx hcl hct hxl k r
    rw [hnone] at hci
    exact Bool.noConfusion hci
  unfold inMarkerPos
  simp only [commands_pair, List.findSome?_cons, List.findSome?_nil, hfsub, hclose,
    Option.isNone_none, if_true, huns]

theorem inMarkerPos_marker_small (c ctx Pr : Str) (llm : Option (Str → Str → LLMResult))
    (hcl : ∀ x ∈ c, ciChar '<' x = false)
    (hct : ciPrefAt (str "tool-unsupported") c = false)
    (hxl : ∀ x ∈ ctx, ciChar '<' x = false)
    (k : Nat) (hk : k < (mkOpen c).length) :
    inMarkerPos ⟨[(c, Pr)], llm⟩ ((mkMarker c ctx).take k) = none := by
  have hfsub : findSub ('<' :: (c ++ ['>'])) ((mkMarker c ctx).take k) = none := by
    rw [findSub_eq_none_iff]
    intro r
    by_contra hp
    rw [Bool.not_eq_false] at hp
    have hlen := isPrefixOf_length hp
    have h1 : ('<' :: (c ++ ['>'])).length = c.length + 2 := by simp
    have h2 : (((mkMarker c ctx).take k).drop r).length ≤ k := by
      simp only [List.length_drop, List.length_take]
      omega
    have h3 : (mkOpen c).length = c.length + 2 := by simp [mkOpen]
    omega
  have huns : findSub (str "<tool-unsupported") ((mkMarker c ctx).take k) = none := by
    rw [findSub_eq_none_iff]
    intro r
    by_contra hp
    rw [Bool.not_eq_false] at hp
    have hci := isPrefixOf_imp_ciPrefAt hp
    have hnone := no_unsL_in_take c ctx hcl hct hxl k r
    rw [hnone] at hci
    exact Bool.noConfusion hci
  unfold inMarkerPos
  simp only [commands_pair, List.findSome?_cons, List.findSome?_nil, hfsub, huns]

theorem firstTagPieceAtEnd_nil (x : Char) (xs : Str) :
    firstTagPieceAtEnd (x :: xs) [] = none := by
  unfold firstTagPieceAtEnd
  rw [List.find?_eq_none]
  intro i hi
  have hi1 : 1 ≤ i := (List.mem_range'_1.mp hi).1
  cases i with
  | zero => omega
  | succ j =>
    rw [List.take_succ_cons]
    simp [isSuffixOf_nil_false]

theorem endRetain_nil (cfg : Config) : endRetain cfg [] = none := by
  unfold endRetain
  have h1 : cfg.commands.findSome?
      (fun c => firstTagPieceAtEnd ('<' :: (c ++ ['>'])) []) = none := by
    rw [List.findSome?_eq_none_iff]
    intro c _
    exact firstTagPieceAtEnd_nil '<' (c ++ ['>'])
  rw [h1]
  show firstTagPieceAtEnd (str "<tool-unsupported") [] = none
  rw [unsL_cons]
  exact firstTagPieceAtEnd_nil '<' (str "tool-unsupported")

theorem firstTagPiece_marker_small (c ctx : Str)
    (hcl : ∀ x ∈ c, ciChar '<' x = false)
    (k : Nat) (hk1 : 1 ≤ k) (hk2 : k < (mkOpen c).length) :
    firstTagPieceAtEnd ('<' :: (c ++ ['>'])) ((mkMarker c ctx).take k) = some k := by
  have hk2' : k < ('<' :: (c ++ ['>'])).length := hk2
  have hlen : ('<' :: (c ++ ['>'])).length = c.length + 2 := by simp
  have hP : (mkMarker c ctx).take k = ('<' :: (c ++ ['>'])).take k := by
    rw [show mkMarker c ctx = ('<' :: (c ++ ['>'])) ++ (ctx ++ mkClose c) from rfl]
    exact List.take_append_of_le_length (by omega)
  rw [hP]
  unfold firstTagPieceAtEnd
  apply find?_range'_first _ _ 1 k hk1 (by omega)
  · rw [List.isSuffixOf_iff_suffix]
  · intro i h1i hik
    by_contra hp
    rw [Bool.not_eq_false] at hp
    have hsuf := List.isSuffixOf_iff_suffix.mp hp
    obtain ⟨j, rfl⟩ : ∃ j, i = j + 1 := ⟨i - 1, by omega⟩
    obtain ⟨m, rfl⟩ : ∃ m, k = m + 1 := ⟨k - 1, by omega⟩
    rw [List.take_succ_cons, List.take_succ_cons] at hsuf
    have hjc : j ≤ c.length := by omega
    have hmc : m ≤ c.length := by omega
    rw [List.take_append_of_le_length hjc, List.take_append_of_le_length hmc] at hsuf
    have hne : c.take j ≠ c.take m := by
      intro heq
      have hle := congrArg List.length heq
      rw [List.length_take, List.length_take] at hle
      omega
    have hmem := suffix_head_mem hsuf hne
    have hbad := hcl '<' (List.take_subset m c hmem)
    rw [ciChar_refl] at hbad
    exact Bool.noConfusion hbad

theorem endRetain_marker_small (c ctx Pr : Str) (llm : Option (Str → Str → LLMResult))
    (hcl : ∀ x ∈ c, ciChar '<' x = false)
    (k : Nat) (hk1 : 1 ≤ k) (hk2 : k < (mkOpen c).length) :
    endRetain ⟨[(c, Pr)], llm⟩ ((mkMarker c ctx).take k) = some k := by
  unfold endRetain
  simp only [commands_pair, List.findSome?_cons,
    firstTagPiece_marker_small c ctx hcl k hk1 hk2]

theorem elseKeepPos_marker_pref (c ctx Pr : Str) (llm : Option (Str → Str → LLMResult))
    (hc0 : c ≠ [])
    (hcl : ∀ x ∈ c, ciChar '<' x = false)
    (hcs : ∀ x ∈ c, ciChar '/' x = false)
    (hct : ciPrefAt (str "tool-unsupported") c = false)
    (hxl : ∀ x ∈ ctx, ciChar '<' x = false)
    (k : Nat) (hk : k < (mkMarker c ctx).length) :
    elseKeepPos ⟨[(c, Pr)], llm⟩ ((mkMarker c ctx).take k) = 0 := by
  unfold elseKeepPos
  by_cases hbig : (mkOpen c).length ≤ k
  · rw [inMarkerPos_marker_big c ctx Pr llm hc0 hcl hcs hct hxl k hbig hk]
  · push_neg at hbig
    rw [inMarkerPos_marker_small c ctx Pr llm hcl hct hxl k hbig]
    by_cases hk0 : k = 0
    · subst hk0
      rw [List.take_zero, endRetain_nil]
      rfl
    · rw [endRetain_marker_small c ctx Pr llm hcl k (by omega) hbig]
      show ((mkMarker c ctx).take k).length - k = 0
      rw [List.length_take]
      omega

/-! ### Feeding a single complete marker chunk by chunk -/

theorem processChunk_cons (cfg : Config) (st : ExecState) (chunk : Str)
    (a : Str × Str) (l : List (Str × Str)) (hp : cfg.prompts = a :: l) :
    processChunk cfg st chunk
      = (⟨(processLoop cfg ((st.buffer ++ chunk).length + 1) (st.buffer ++ chunk)
             st.generated).1,
          (processLoop cfg ((st.buffer ++ chunk).length + 1) (st.buffer ++ chunk)
             st.generated).2.1⟩,
         (processLoop cfg ((st.buffer ++ chunk).length + 1) (st.buffer ++ chunk)
            st.generated).2.2.1,
         (processLoop cfg ((st.buffer ++ chunk).length + 1) (st.buffer ++ chunk)
            st.generated).2.2.2) := by
  unfold processChunk
  rw [hp]

theorem processLoop_succ_marker (cfg : Config) (fuel : Nat) (buf gen : Str) (m : MMatch)
    (hu : searchUnsupported buf = none)
    (hm : searchMarker cfg.commands buf = some m) :
    processLoop cfg (fuel + 1) buf gen
      = ((processLoop cfg fuel m.rest
            (gen ++ buf.take m.start ++ (executeTool cfg m.cmd (pyStrip m.content)).1)).1,
         (processLoop cfg fuel m.rest
            (gen ++ buf.take m.start ++ (executeTool cfg m.cmd (pyStrip m.content)).1)).2.1,
         Item.text (buf.take m.start)
           :: Item.toolOut (executeTool cfg m.cmd (pyStrip m.content)).1
           :: (processLoop cfg fuel m.rest
            (gen ++ buf.take m.start ++ (executeTool cfg m.cmd (pyStrip m.content)).1)).2.2.1,
         (executeTool cfg m.cmd (pyStrip m.content)).2
           ++ (processLoop cfg fuel m.rest
            (gen ++ buf.take m.start ++ (executeTool cfg m.cmd (pyStrip m.content)).1)).2.2.2) := by
  conv_lhs => unfold processLoop
  simp [hu, hm]

theorem processChunk_marker_step (c ctx Pr : Str) (llm : Option (Str → Str → LLMResult))
    (hc0 : c ≠ [])
    (hcl : ∀ x ∈ c, ciChar '<' x = false)
    (hcs : ∀ x ∈ c, ciChar '/' x = false)
    (hct : ciPrefAt (str "tool-unsupported") c = false)
    (hxl : ∀ x ∈ ctx, ciChar '<' x = false)
    (g chunk : Str) (k0 k1 : Nat)
    (hcat : (mkMarker c ctx).take k0 ++ chunk = (mkMarker c ctx).take k1)
    (hk1 : k1 < (mkMarker c ctx).length) :
    processChunk ⟨[(c, Pr)], llm⟩ ⟨(mkMarker c ctx).take k0, g⟩ chunk
      = (⟨(mkMarker c ctx).take k1, g⟩, [.text []], []) := by
  have hu := searchUnsupported_marker_pref c ctx hcl hct hxl k1
  have hm : searchMarker (Config.commands ⟨[(c, Pr)], llm⟩) ((mkMarker c ctx).take k1)
      = none := by
    rw [commands_pair]
    exact searchMarker_marker_proper_pref c ctx hc0 hcl hcs hxl k1 hk1
  have hkeep := elseKeepPos_marker_pref c ctx Pr llm hc0 hcl hcs hct hxl k1 hk1
  rw [processChunk_cons _ _ _ (c, Pr) [] rfl]
  simp only [hcat]
  rw [processLoop_pass _ _ _ _ (Nat.succ_pos _) hu hm, hkeep]
  simp

theorem processChunk_marker_done (c ctx Pr : Str) (llm : Option (Str → Str → LLMResult))
    (hcl : ∀ x ∈ c, ciChar '<' x = false)
    (hct : ciPrefAt (str "tool-unsupported") c = false)
    (hxl : ∀ x ∈ ctx, ciChar '<' x = false)
    (g chunk : Str) (k0 : Nat)
    (hcat : (mkMarker c ctx).take k0 ++ chunk = mkMarker c ctx) :
    processChunk ⟨[(c, Pr)], llm⟩ ⟨(mkMarker c ctx).take k0, g⟩ chunk
      = (⟨[], g ++ (executeTool ⟨[(c, Pr)], llm⟩ c (pyStrip ctx)).1⟩,
         [.text [], .toolOut (executeTool ⟨[(c, Pr)], llm⟩ c (pyStrip ctx)).1, .text []],
         (executeTool ⟨[(c, Pr)], llm⟩ c (pyStrip ctx)).2) := by
  have hpos : 0 < (mkMarker c ctx).length := by simp [mkMarker, mkOpen]
  have hu := searchUnsupported_marker c ctx hcl hct hxl
  have hm : searchMarker (Config.commands ⟨[(c, Pr)], llm⟩) (mkMarker c ctx)
      = some ⟨0, c, ctx, []⟩ := by
    rw [commands_pair]
    exact searchMarker_on_marker c ctx hxl
  have hmnil : searchMarker (Config.commands ⟨[(c, Pr)], llm⟩) ([] : Str) = none := by
    rw [commands_pair]
    exact searchMarker_nil [c]
  have hrest : processLoop ⟨[(c, Pr)], llm⟩ ((mkMarker c ctx).length) []
      (g ++ (executeTool ⟨[(c, Pr)], llm⟩ c (pyStrip ctx)).1)
      = ([], g ++ (executeTool ⟨[(c, Pr)], llm⟩ c (pyStrip ctx)).1, [.text []], []) := by
    rw [processLoop_pass _ _ _ _ hpos searchUnsupported_nil hmnil]
    simp
  have hstep := processLoop_succ_marker ⟨[(c, Pr)], llm⟩ (mkMarker c ctx).length
    (mkMarker c ctx) g ⟨0, c, ctx, []⟩ hu hm
  simp only [List.take_zero, List.append_nil] at hstep
  rw [hrest] at hstep
  rw [processChunk_cons _ _ _ (c, Pr) [] rfl]
  simp only [hcat]
  rw [hstep]
  simp

theorem processChunk_empty_after (c Pr : Str) (llm : Option (Str → Str → LLMResult)) (g : Str) :
    processChunk ⟨[(c, Pr)], llm⟩ ⟨[], g⟩ [] = (⟨[], g⟩, [.text []], []) := by
  have hmnil : searchMarker (Config.commands ⟨[(c, Pr)], llm⟩) ([] : Str) = none := by
    rw [commands_pair]
    exact searchMarker_nil [c]
  rw [processChunk_cons _ _ _ (c, Pr) [] rfl]
  simp only [List.append_nil]
  rw [processLoop_pass _ _ _ _ (Nat.succ_pos _) searchUnsupported_nil hmnil]
  simp

theorem runChunks_empty_tail (c Pr : Str) (llm : Option (Str → Str → LLMResult)) (g : Str) :
    ∀ cs : List Str, (∀ x ∈ cs, x = ([] : Str)) →
      runChunks ⟨[(c, Pr)], llm⟩ ⟨[], g⟩ cs
        = (⟨[], g⟩, cs.map (fun _ => Item.text []), []) := by
  intro cs
  induction cs with
  | nil => intro _; rfl
  | cons x cs ih =>
    intro hall
    have hx : x = [] := hall x (by simp)
    subst hx
    show runChunks _ _ (([] : Str) :: cs) = _
    unfold runChunks
    rw [processChunk_empty_after c Pr llm g]
    simp [ih (fun y hy => hall y (by simp [hy]))]

theorem render_const_empty (cs : List Str) :
    render (cs.map (fun _ => Item.text [])) = [] := by
  induction cs with
  | nil => rfl
  | cons x cs ih => simpa [render_cons, Item.payload] using ih

theorem emittedText_append (a b : List Item) :
    emittedText (a ++ b) = emittedText a ++ emittedText b := by
  simp [emittedText, List.filterMap_append]

theorem emittedText_const_empty (cs : List Str) :
    emittedText (cs.map (fun _ => Item.text [])) = [] := by
  induction cs with
  | nil => rfl
  | cons x cs ih => simp [emittedText, ih]

theorem runChunks_marker_aux (c ctx Pr : Str) (llm : Option (Str → Str → LLMResult))
    (hc0 : c ≠ [])
    (hcl : ∀ x ∈ c, ciChar '<' x = false)
    (hcs : ∀ x ∈ c, ciChar '/' x = false)
    (hct : ciPrefAt (str "tool-unsupported") c = false)
    (hxl : ∀ x ∈ ctx, ciChar '<' x = false) :
    ∀ (chunks : List Str) (k0 : Nat) (g : Str),
      k0 < (mkMarker c ctx).length →
      (mkMarker c ctx).take k0 ++ chunks.flatten = mkMarker c ctx →
      (runChunks ⟨[(c, Pr)], llm⟩ ⟨(mkMarker c ctx).take k0, g⟩ chunks).1
          = ⟨[], g ++ (executeTool ⟨[(c, Pr)], llm⟩ c (pyStrip ctx)).1⟩
      ∧ render (runChunks ⟨[(c, Pr)], llm⟩ ⟨(mkMarker c ctx).take k0, g⟩ chunks).2.1
          = (executeTool ⟨[(c, Pr)], llm⟩ c (pyStrip ctx)).1
      ∧ emittedText (runChunks ⟨[(c, Pr)], llm⟩ ⟨(mkMarker c ctx).take k0, g⟩ chunks).2.1
          = []
      ∧ (runChunks ⟨[(c, Pr)], llm⟩ ⟨(mkMarker c ctx).take k0, g⟩ chunks).2.2
          = (executeTool ⟨[(c, Pr)], llm⟩ c (pyStrip ctx)).2 := by
  intro chunks
  induction chunks with
  | nil =>
    intro k0 g hk0 hflat
    exfalso
    simp only [List.flatten_nil, List.append_nil] at hflat
    have hlen := congrArg List.length hflat
    rw [List.length_take] at hlen
    omega
  | cons ch cs ih =>
    intro k0 g hk0 hflat
    have hsplit : ch ++ cs.flatten = (mkMarker c ctx).drop k0 := by
      apply @List.append_cancel_left _ ((mkMarker c ctx).take k0) _ _
      rw [List.take_append_drop]
      simpa [List.flatten_cons, List.append_assoc] using hflat
    have hch : (mkMarker c ctx).take k0 ++ ch = (mkMarker c ctx).take (k0 + ch.length) := by
      rw [List.take_add]
      congr 1
      rw [← hsplit, List.take_left]
    have hlen_le : k0 + ch.length ≤ (mkMarker c ctx).length := by
      have hl := congrArg List.length hsplit
      simp only [List.length_append, List.length_drop] at hl
      omega
    obtain ⟨hs1, hs2⟩ := runChunks_snd_cons ⟨[(c, Pr)], llm⟩
      ⟨(mkMarker c ctx).take k0, g⟩ ch cs
    by_cases hfin : k0 + ch.length < (mkMarker c ctx).length
    · have hstep := processChunk_marker_step c ctx Pr llm hc0 hcl hcs hct hxl g ch k0
        (k0 + ch.length) hch hfin
      have hflat2 : (mkMarker c ctx).take (k0 + ch.length) ++ cs.flatten
          = mkMarker c ctx := by
        rw [← hch, List.append_assoc, hsplit, List.take_append_drop]
      obtain ⟨ih1, ih2, ih3, ih4⟩ := ih (k0 + ch.length) g hfin hflat2
      refine ⟨?_, ?_, ?_, ?_⟩
      · rw [runChunks_fst_cons, hstep]
        exact ih1
      · rw [hs1, hstep]
        exact ih2
      · rw [hs1, hstep]
        exact ih3
      · rw [hs2, hstep]
        exact ih4
    · have hk1 : k0 + ch.length = (mkMarker c ctx).length := by omega
      have hM : (mkMarker c ctx).take k0 ++ ch = mkMarker c ctx := by
        rw [hch, hk1, List.take_length]
      have hfl0 : cs.flatten = ([] : Str) := by
        have hl := congrArg List.length hsplit
        simp only [List.length_append, List.length_drop] at hl
        exact List.eq_nil_of_length_eq_zero (by omega)
      have hall : ∀ x ∈ cs, x = ([] : Str) := List.flatten_eq_nil_iff.mp hfl0
      have hdone := processChunk_marker_done c ctx Pr llm hcl hct hxl g ch k0 hM
      have htail := runChunks_empty_tail c Pr llm
        (g ++ (executeTool ⟨[(c, Pr)], llm⟩ c (pyStrip ctx)).1) cs hall
      refine ⟨?_, ?_, ?_, ?_⟩
      · simp only [runChunks_fst_cons, hdone]
        rw [htail]
      · rw [hs1]
        simp only [hdone]
        rw [htail]
        rw [render_append, render_const_empty]
        simp [render_cons, render_nil, Item.payload]
      · rw [hs1]
        simp only [hdone]
        rw [htail]
        rw [emittedText_append, emittedText_const_empty]
        simp [emittedText]
      · rw [hs2]
        simp only [hdone]
        rw [htail]
        simp


/-! ### Marker-prefix lemmas for an arbitrary command set

The hypotheses name the interference channels of the detection loop
directly as occurrence conditions on the marker: no other command
matches the marker head, no command open tag occurs strictly inside the
marker, the closing tag occurs only at the very end, and the
`<tool-unsupported` literal occurs nowhere in the marker. -/

theorem findSome?_eq_of_mem {α β : Type} (f : α → Option β) (l : List α) (a : α) (v : β)
    (ha : a ∈ l) (hfa : f a = some v)
    (hall : ∀ x ∈ l, f x = none ∨ f x = some v) :
    l.findSome? f = some v := by
  induction l with
  | nil => exact absurd ha (by simp)
  | cons x xs ih =>
    rw [List.findSome?_cons]
    cases hfx : f x with
    | some w =>
      rcases hall x (by simp) with h | h
      · rw [hfx] at h; exact Option.noConfusion h
      · rw [hfx] at h; exact h
    | none =>
      rcases List.mem_cons.mp ha with h | h
      · subst h; rw [hfx] at hfa; exact Option.noConfusion hfa
      · exact ih h (fun y hy => hall y (by simp [hy]))

theorem close_not_in_take_gen (c ctx : Str) (hc0 : c ≠ [])
    (hcl : ∀ x ∈ c, ciChar '<' x = false)
    (hcs : ∀ x ∈ c, ciChar '/' x = false)
    (hcz : ∀ j, j < ctx.length → ciPrefAt (mkClose c) ((ctx ++ mkClose c).drop j) = false)
    (k : Nat) (hk : k < (mkMarker c ctx).length) (r : Nat) :
    ciPrefAt (mkClose c) (((mkMarker c ctx).take k).drop r) = false := by
  by_contra hcc
  rw [Bool.not_eq_false] at hcc
  obtain ⟨hext, hbound⟩ := ciPrefAt_take_drop (by simp [mkClose]) hcc
  by_cases hr : r < (mkOpen c).length
  · cases r with
    | zero =>
      rw [List.drop_zero] at hext
      obtain ⟨a, as, hc⟩ : ∃ a as, c = a :: as := by
        cases c with
        | nil => exact absurd rfl hc0
        | cons a as => exact ⟨a, as, rfl⟩
      have ha : ciChar '/' a = false := hcs a (by rw [hc]; simp)
      rw [show mkMarker c ctx = '<' :: (c ++ ('>' :: (ctx ++ mkClose c))) from by
        simp [mkMarker, mkOpen, List.append_assoc]] at hext
      rw [show mkClose c = '<' :: '/' :: (c ++ ['>']) from rfl, hc] at hext
      simp [ciPrefAt, ciChar_refl, ha] at hext
    | succ r1 =>
      rw [show mkMarker c ctx = mkOpen c ++ (ctx ++ mkClose c) from rfl,
        List.drop_append_of_le_length (Nat.le_of_lt hr)] at hext
      rw [show mkOpen c = '<' :: (c ++ ['>']) from rfl, List.drop_succ_cons] at hext
      have hr1 : r1 < (c ++ ['>']).length := by
        have h1 : (mkOpen c).length = c.length + 2 := by simp [mkOpen]
        simp only [List.length_append, List.length_cons, List.length_nil]
        omega
      obtain ⟨x, xs, hdr, hxmem⟩ := drop_head_mem hr1
      rw [hdr, List.cons_append] at hext
      have hx : ciChar '<' x = false := by
        rcases List.mem_append.mp hxmem with h | h
        · exact hcl x h
        · simp only [List.mem_singleton] at h; subst h; decide
      rw [show mkClose c = '<' :: '/' :: (c ++ ['>']) from rfl] at hext
      rw [ciPrefAt_false_head hx] at hext
      exact Bool.noConfusion hext
  · push_neg at hr
    obtain ⟨j, hj⟩ : ∃ j, r = (mkOpen c).length + j := ⟨r - (mkOpen c).length, by omega⟩
    subst hj
    rw [show mkMarker c ctx = mkOpen c ++ (ctx ++ mkClose c) from rfl,
      List.drop_append] at hext
    have hjlt : j < ctx.length := by
      have h1 : (mkMarker c ctx).length
          = (mkOpen c).length + (ctx.length + (mkClose c).length) := by
        simp [mkMarker]
      omega
    rw [hcz j hjlt] at hext
    exact Bool.noConfusion hext

theorem unsL_not_in_take_gen (c ctx : Str)
    (hun : ∀ q, q < (mkMarker c ctx).length →
      ciPrefAt (str "<tool-unsupported") ((mkMarker c ctx).drop q) = false)
    (k r : Nat) :
    ciPrefAt (str "<tool-unsupported") (((mkMarker c ctx).take k).drop r) = false := by
  by_contra hcc
  rw [Bool.not_eq_false] at hcc
  obtain ⟨hext, -⟩ := ciPrefAt_take_drop (by rw [unsL_cons]; simp) hcc
  have hlen := ciPrefAt_length hext
  have hq : r < (mkMarker c ctx).length := by
    have h1 : 0 < (str "<tool-unsupported").length := by decide
    simp only [List.length_drop] at hlen
    omega
  rw [hun r hq] at hext
  exact Bool.noConfusion hext

theorem searchUnsupported_take_gen (c ctx : Str)
    (hun : ∀ q, q < (mkMarker c ctx).length →
      ciPrefAt (str "<tool-unsupported") ((mkMarker c ctx).drop q) = false)
    (k : Nat) :
    searchUnsupported ((mkMarker c ctx).take k) = none := by
  rw [searchUnsupported_eq_none_iff]
  intro q
  unfold matchUnsupportedAt
  simp [ciDrop, unsL_not_in_take_gen c ctx hun k q]

theorem searchUnsupported_marker_gen (c ctx : Str)
    (hun : ∀ q, q < (mkMarker c ctx).length →
      ciPrefAt (str "<tool-unsupported") ((mkMarker c ctx).drop q) = false) :
    searchUnsupported (mkMarker c ctx) = none := by
  rw [← List.take_length (mkMarker c ctx)]
  exact searchUnsupported_take_gen c ctx hun (mkMarker c ctx).length

theorem findSub_open_none_gen (c ctx x : Str)
    (h0 : x = c ∨ ciPrefAt (mkOpen x) (mkMarker c ctx) = false)
    (hop : ∀ p, p < (mkMarker c ctx).length → 0 < p →
      ciPrefAt (mkOpen x) ((mkMarker c ctx).drop p) = false)
    (hne : x ≠ c) (k : Nat) :
    findSub ('<' :: (x ++ ['>'])) ((mkMarker c ctx).take k) = none := by
  rw [findSub_eq_none_iff]
  intro r
  by_contra hp
  rw [Bool.not_eq_false] at hp
  have hci := isPrefixOf_imp_ciPrefAt hp
  obtain ⟨hext, -⟩ := ciPrefAt_take_drop (by simp) hci
  cases r with
  | zero =>
    rw [List.drop_zero] at hext
    rcases h0 with h | h
    · exact hne h
    · rw [show mkOpen x = '<' :: (x ++ ['>']) from rfl] at h
      rw [h] at hext
      exact Bool.noConfusion hext
  | succ p =>
    have hlen := ciPrefAt_length hext
    have hq : p + 1 < (mkMarker c ctx).length := by
      have h1 : 0 < ('<' :: (x ++ ['>'])).length := by simp
      simp only [List.length_drop] at hlen
      omega
    have h := hop (p + 1) hq (by omega)
    rw [show mkOpen x = '<' :: (x ++ ['>']) from rfl] at h
    rw [h] at hext
    exact Bool.noConfusion hext

theorem findSub_open_c_small (c ctx : Str)
    (hop : ∀ p, p < (mkMarker c ctx).length → 0 < p →
      ciPrefAt (mkOpen c) ((mkMarker c ctx).drop p) = false)
    (k : Nat) (hk : k < (mkOpen c).length) :
    findSub ('<' :: (c ++ ['>'])) ((mkMarker c ctx).take k) = none := by
  rw [findSub_eq_none_iff]
  intro r
  by_contra hp
  rw [Bool.not_eq_false] at hp
  have hci := isPrefixOf_imp_ciPrefAt hp
  obtain ⟨hext, hbound⟩ := ciPrefAt_take_drop (by simp) hci
  cases r with
  | zero =>
    have h1 : ('<' :: (c ++ ['>'])).length = (mkOpen c).length := rfl
    omega
  | succ p =>
    have hlen := ciPrefAt_length hext
    have hq : p + 1 < (mkMarker c ctx).length := by
      have h1 : 0 < ('<' :: (c ++ ['>'])).length := by simp
      simp only [List.length_drop] at hlen
      omega
    have h := hop (p + 1) hq (by omega)
    rw [show mkOpen c = '<' :: (c ++ ['>']) from rfl] at h
    rw [h] at hext
    exact Bool.noConfusion hext

theorem inMarkerPos_take_big_gen (cfg : Config) (c ctx : Str)
    (hcmem : c ∈ cfg.commands) (hc0 : c ≠ [])
    (hcl : ∀ x ∈ c, ciChar '<' x = false)
    (hcs : ∀ x ∈ c, ciChar '/' x = false)
    (hopen0 : ∀ x ∈ cfg.commands, x = c ∨ ciPrefAt (mkOpen x) (mkMarker c ctx) = false)
    (hopen1 : ∀ x ∈ cfg.commands, ∀ p, p < (mkMarker c ctx).length → 0 < p →
      ciPrefAt (mkOpen x) ((mkMarker c ctx).drop p) = false)
    (hcz : ∀ j, j < ctx.length → ciPrefAt (mkClose c) ((ctx ++ mkClose c).drop j) = false)
    (hun : ∀ q, q < (mkMarker c ctx).length →
      ciPrefAt (str "<tool-unsupported") ((mkMarker c ctx).drop q) = false)
    (k : Nat) (hk1 : (mkOpen c).length ≤ k) (hk2 : k < (mkMarker c ctx).length) :
    inMarkerPos cfg ((mkMarker c ctx).take k) = some 0 := by
  have hfc : findSub ('<' :: (c ++ ['>'])) ((mkMarker c ctx).take k) = some 0 := by
    apply findSub_zero
    rw [take_marker_big c ctx k hk1]
    exact List.isPrefixOf_iff_prefix.mpr (List.prefix_append _ _)
  have hclose : findSubFrom ('<' :: '/' :: (c ++ ['>'])) ((mkMarker c ctx).take k)
      (c.length + 1 + 1) = none := by
    unfold findSubFrom
    rw [Option.map_eq_none', findSub_eq_none_iff]
    intro r
    by_contra hp
    rw [Bool.not_eq_false] at hp
    have hci := isPrefixOf_imp_ciPrefAt hp
    rw [List.drop_drop] at hci
    have hnone := close_not_in_take_gen c ctx hc0 hcl hcs hcz k hk2
      (c.length + 1 + 1 + r)
    rw [show mkClose c = '<' :: '/' :: (c ++ ['>']) from rfl] at hnone
    rw [hnone] at hci
    exact Bool.noConfusion hci
  have hcmd : cfg.commands.findSome? (fun x =>
      match findSub ('<' :: (x ++ ['>'])) ((mkMarker c ctx).take k) with
      | some p =>
        if (findSubFrom ('<' :: '/' :: (x ++ ['>'])) ((mkMarker c ctx).take k)
            (p + ('<' :: (x ++ ['>'])).length)).isNone then some p else none
      | none => none) = some 0 := by
    apply findSome?_eq_of_mem _ _ c 0 hcmem
    · simp [hfc, hclose]
    · intro x hx
      by_cases hxc : x = c
      · subst hxc
        right
        simp [hfc, hclose]
      · left
        rw [findSub_open_none_gen c ctx x (hopen0 x hx) (hopen1 x hx) hxc k]
  have hunsP : findSub (str "<tool-unsupported") ((mkMarker c ctx).take k) = none := by
    rw [findSub_eq_none_iff]
    intro r
    by_contra hp
    rw [Bool.not_eq_false] at hp
    have hci := isPrefixOf_imp_ciPrefAt hp
    rw [unsL_not_in_take_gen c ctx hun k r] at hci
    exact Bool.noConfusion hci
  unfold inMarkerPos
  simp only [hcmd, hunsP]

theorem inMarkerPos_take_small_gen (cfg : Config) (c ctx : Str)
    (hopen0 : ∀ x ∈ cfg.commands, x = c ∨ ciPrefAt (mkOpen x) (mkMarker c ctx) = false)
    (hopen1 : ∀ x ∈ cfg.commands, ∀ p, p < (mkMarker c ctx).length → 0 < p →
      ciPrefAt (mkOpen x) ((mkMarker c ctx).drop p) = false)
    (hun : ∀ q, q < (mkMarker c ctx).length →
      ciPrefAt (str "<tool-unsupported") ((mkMarker c ctx).drop q) = false)
    (k : Nat) (hk : k < (mkOpen c).length) :
    inMarkerPos cfg ((mkMarker c ctx).take k) = none := by
  have hcmd : cfg.commands.findSome? (fun x =>
      match findSub ('<' :: (x ++ ['>'])) ((mkMarker c ctx).take k) with
      | some p =>
        if (findSubFrom ('<' :: '/' :: (x ++ ['>'])) ((mkMarker c ctx).take k)
            (p + ('<' :: (x ++ ['>'])).length)).isNone then some p else none
      | none => none) = none := by
    rw [List.findSome?_eq_none_iff]
    intro x hx
    by_cases hxc : x = c
    · rw [hxc, findSub_open_c_small c ctx (hopen1 c (hxc ▸ hx)) k hk]
    · rw [findSub_open_none_gen c ctx x (hopen0 x hx) (hopen1 x hx) hxc k]
  have hunsP : findSub (str "<tool-unsupported") ((mkMarker c ctx).take k) = none := by
    rw [findSub_eq_none_iff]
    intro r
    by_contra hp
    rw [Bool.not_eq_false] at hp
    have hci := isPrefixOf_imp_ciPrefAt hp
    rw [unsL_not_in_take_gen c ctx hun k r] at hci
    exact Bool.noConfusion hci
  unfold inMarkerPos
  simp only [hcmd, hunsP]

theorem firstTagPiece_take_forced (c ctx : Str)
    (hcl : ∀ x ∈ c, ciChar '<' x = false)
    (k : Nat) (hk1 : 1 ≤ k) (hk2 : k < (mkOpen c).length) (pat : Str) :
    firstTagPieceAtEnd ('<' :: pat) ((mkMarker c ctx).take k) = none
    ∨ firstTagPieceAtEnd ('<' :: pat) ((mkMarker c ctx).take k) = some k := by
  cases hf : firstTagPieceAtEnd ('<' :: pat) ((mkMarker c ctx).take k) with
  | none => exact Or.inl rfl
  | some i =>
    right
    unfold firstTagPieceAtEnd at hf
    have hp0 := List.find?_some hf
    have hp : ((('<' :: pat).take i).isSuffixOf ((mkMarker c ctx).take k)) = true := hp0
    have hmem := List.mem_of_find?_eq_some hf
    rw [List.mem_range'_1] at hmem
    have hko : (mkOpen c).length = c.length + 2 := by simp [mkOpen]
    obtain ⟨k1, rfl⟩ : ∃ k1, k = k1 + 1 := ⟨k - 1, by omega⟩
    have hbuf : (mkMarker c ctx).take (k1 + 1) = '<' :: c.take k1 := by
      rw [show mkMarker c ctx = ('<' :: (c ++ ['>'])) ++ (ctx ++ mkClose c) from rfl]
      rw [List.take_append_of_le_length (by
        have : ('<' :: (c ++ ['>'])).length = (mkOpen c).length := rfl
        omega)]
      rw [List.take_succ_cons, List.take_append_of_le_length (by omega)]
    obtain ⟨i1, rfl⟩ : ∃ i1, i = i1 + 1 := ⟨i - 1, by omega⟩
    rw [List.take_succ_cons, hbuf] at hp
    have hsuf := List.isSuffixOf_iff_suffix.mp hp
    by_cases heq : pat.take i1 = c.take k1
    · have hlen := congrArg List.length heq
      rw [List.length_take, List.length_take] at hlen
      have h1 : ('<' :: pat).length = pat.length + 1 := by simp
      have : i1 = k1 := by omega
      rw [this]
    · have hmem2 := suffix_head_mem hsuf heq
      have hbad := hcl '<' (List.take_subset k1 c hmem2)
      rw [ciChar_refl] at hbad
      exact Bool.noConfusion hbad

theorem endRetain_take_small_gen (cfg : Config) (c ctx : Str)
    (hcmem : c ∈ cfg.commands)
    (hcl : ∀ x ∈ c, ciChar '<' x = false)
    (k : Nat) (hk1 : 1 ≤ k) (hk2 : k < (mkOpen c).length) :
    endRetain cfg ((mkMarker c ctx).take k) = some k := by
  unfold endRetain
  have h1 : cfg.commands.findSome?
      (fun x => firstTagPieceAtEnd ('<' :: (x ++ ['>'])) ((mkMarker c ctx).take k))
      = some k := by
    apply findSome?_eq_of_mem _ _ c k hcmem
    · exact firstTagPiece_marker_small c ctx hcl k hk1 hk2
    · intro x _
      exact firstTagPiece_take_forced c ctx hcl k hk1 hk2 (x ++ ['>'])
  rw [h1]

theorem elseKeepPos_take_gen (cfg : Config) (c ctx : Str)
    (hcmem : c ∈ cfg.commands) (hc0 : c ≠ [])
    (hcl : ∀ x ∈ c, ciChar '<' x = false)
    (hcs : ∀ x ∈ c, ciChar '/' x = false)
    (hopen0 : ∀ x ∈ cfg.commands, x = c ∨ ciPrefAt (mkOpen x) (mkMarker c ctx) = false)
    (hopen1 : ∀ x ∈ cfg.commands, ∀ p, p < (mkMarker c ctx).length → 0 < p →
      ciPrefAt (mkOpen x) ((mkMarker c ctx).drop p) = false)
    (hcz : ∀ j, j < ctx.length → ciPrefAt (mkClose c) ((ctx ++ mkClose c).drop j) = false)
    (hun : ∀ q, q < (mkMarker c ctx).length →
      ciPrefAt (str "<tool-unsupported") ((mkMarker c ctx).drop q) = false)
    (k : Nat) (hk : k < (mkMarker c ctx).length) :
    elseKeepPos cfg ((mkMarker c ctx).take k) = 0 := by
  unfold elseKeepPos
  by_cases hbig : (mkOpen c).length ≤ k
  · rw [inMarkerPos_take_big_gen cfg c ctx hcmem hc0 hcl hcs hopen0 hopen1 hcz hun k hbig hk]
  · push_neg at hbig
    rw [inMarkerPos_take_small_gen cfg c ctx hopen0 hopen1 hun k hbig]
    by_cases hk0 : k = 0
    · subst hk0
      rw [List.take_zero, endRetain_nil]
      rfl
    · rw [endRetain_take_small_gen cfg c ctx hcmem hcl k (by omega) hbig]
      show ((mkMarker c ctx).take k).length - k = 0
      rw [List.length_take]
      omega

theorem searchMarker_take_gen (cfg : Config) (c ctx : Str)
    (hc0 : c ≠ [])
    (hcl : ∀ x ∈ c, ciChar '<' x = false)
    (hcs : ∀ x ∈ c, ciChar '/' x = false)
    (hopen0 : ∀ x ∈ cfg.commands, x = c ∨ ciPrefAt (mkOpen x) (mkMarker c ctx) = false)
    (hopen1 : ∀ x ∈ cfg.commands, ∀ p, p < (mkMarker c ctx).length → 0 < p →
      ciPrefAt (mkOpen x) ((mkMarker c ctx).drop p) = false)
    (hcz : ∀ j, j < ctx.length → ciPrefAt (mkClose c) ((ctx ++ mkClose c).drop j) = false)
    (k : Nat) (hk : k < (mkMarker c ctx).length) :
    searchMarker cfg.commands ((mkMarker c ctx).take k) = none := by
  rw [searchMarker_eq_none_iff]
  intro q
  unfold matchMarkerAt
  rw [List.findSome?_eq_none_iff]
  intro x hx
  simp only []
  by_cases hcond : ciPrefAt ('<' :: (x ++ ['>'])) (((mkMarker c ctx).take k).drop q) = true
  · rw [if_pos hcond]
    by_cases hxc : x = c
    · subst hxc
      simp only [List.drop_drop]
      cases hsf : searchFirst
          (fun t => if ciPrefAt ('<' :: '/' :: (x ++ ['>'])) t = true then some () else none)
          ((mkMarker x ctx).take k |>.drop (q + ('<' :: (x ++ ['>'])).length)) with
      | none => simp only [hsf]
      | some p =>
        exfalso
        obtain ⟨j, hu⟩ := p
        have hj := searchFirst_eq_some_spec _ _ _ _ hsf
        have hcp : ciPrefAt ('<' :: '/' :: (x ++ ['>']))
            ((((mkMarker x ctx).take k).drop (q + ('<' :: (x ++ ['>'])).length)).drop j)
            = true := by
          by_contra hcc2
          rw [if_neg hcc2] at hj
          exact Option.noConfusion hj
        rw [List.drop_drop] at hcp
        have hnone := close_not_in_take_gen x ctx hc0 hcl hcs hcz k hk
          (q + ('<' :: (x ++ ['>'])).length + j)
        rw [show mkClose x = '<' :: '/' :: (x ++ ['>']) from rfl] at hnone
        rw [hnone] at hcp
        exact Bool.noConfusion hcp
    · exfalso
      obtain ⟨hext, hbound⟩ := ciPrefAt_take_drop (by simp) hcond
      cases q with
      | zero =>
        rw [List.drop_zero] at hext
        rcases hopen0 x hx with h | h
        · exact hxc h
        · rw [show mkOpen x = '<' :: (x ++ ['>']) from rfl] at h
          rw [h] at hext
          exact Bool.noConfusion hext
      | succ p =>
        have hlen := ciPrefAt_length hext
        have hq : p + 1 < (mkMarker c ctx).length := by
          have h1 : 0 < ('<' :: (x ++ ['>'])).length := by simp
          simp only [List.length_drop] at hlen
          omega
        have h := hopen1 x hx (p + 1) hq (by omega)
        rw [show mkOpen x = '<' :: (x ++ ['>']) from rfl] at h
        rw [h] at hext
        exact Bool.noConfusion hext
  · rw [if_neg hcond]

theorem matchMarkerAt_on_marker_gen (c ctx : Str)
    (hcz : ∀ j, j < ctx.length → ciPrefAt (mkClose c) ((ctx ++ mkClose c).drop j) = false) :
    ∀ cmds : List Str, c ∈ cmds →
      (∀ x ∈ cmds, x = c ∨ ciPrefAt (mkOpen x) (mkMarker c ctx) = false) →
      matchMarkerAt cmds (mkMarker c ctx) = some (c, ctx, []) := by
  intro cmds
  induction cmds with
  | nil => intro h _; exact absurd h (by simp)
  | cons x xs ih =>
    intro hmem hall
    unfold matchMarkerAt
    rw [List.findSome?_cons]
    rcases hall x (by simp) with hx | hx
    · subst hx
      have hopen : ciPrefAt ('<' :: (x ++ ['>'])) (mkMarker x ctx) = true := by
        rw [show mkMarker x ctx = ('<' :: (x ++ ['>'])) ++ (ctx ++ mkClose x) from rfl]
        exact ciPrefAt_self_append _ _
      have hinner : (mkMarker x ctx).drop (('<' :: (x ++ ['>'])).length)
          = ctx ++ mkClose x := by
        rw [show mkMarker x ctx = ('<' :: (x ++ ['>'])) ++ (ctx ++ mkClose x) from rfl]
        exact List.drop_left _ _
      have hclose : searchFirst
          (fun t => if ciPrefAt ('<' :: '/' :: (x ++ ['>'])) t = true then some () else none)
          (ctx ++ mkClose x) = some (ctx.length, ()) := by
        apply searchFirst_intro
        · rw [List.drop_left' rfl, if_pos]
          rw [show mkClose x = '<' :: '/' :: (x ++ ['>']) from rfl]
          exact ciPrefAt_self _
        · intro r hr
          have h2 : ciPrefAt ('<' :: '/' :: (x ++ ['>'])) ((ctx ++ mkClose x).drop r)
              = false := hcz r hr
          simp [h2]
      have hg1 : ((mkMarker x ctx).drop 1).take x.length = x := by
        rw [show mkMarker x ctx = '<' :: ((x ++ ['>']) ++ (ctx ++ mkClose x)) from by
          simp [mkMarker, mkOpen, List.append_assoc]]
        rw [List.drop_succ_cons, List.drop_zero, List.append_assoc, List.take_left]
      have hg2 : (ctx ++ mkClose x).take ctx.length = ctx := List.take_left _ _
      have hg3 : ((ctx ++ mkClose x).drop ctx.length).drop
          (('<' :: '/' :: (x ++ ['>'])).length) = [] := by
        rw [List.drop_left' rfl]
        rw [show mkClose x = '<' :: '/' :: (x ++ ['>']) from rfl]
        exact List.drop_length _
      simp only [hopen, hinner, hclose, if_true, hg1, hg2, hg3]
    · have hcx : c ∈ xs := by
        rcases List.mem_cons.mp hmem with h | h
        · exfalso
          subst h
          rw [show mkOpen c = '<' :: (c ++ ['>']) from rfl] at hx
          rw [show mkMarker c ctx = ('<' :: (c ++ ['>'])) ++ (ctx ++ mkClose c) from rfl]
            at hx
          rw [ciPrefAt_self_append] at hx
          exact Bool.noConfusion hx
        · exact h
      have hrec := ih hcx (fun y hy => hall y (by simp [hy]))
      rw [show mkOpen x = '<' :: (x ++ ['>']) from rfl] at hx
      rw [if_neg (by rw [hx]; exact fun hc => Bool.noConfusion hc)]
      exact hrec

theorem searchMarker_on_marker_gen (cfg : Config) (c ctx : Str)
    (hcmem : c ∈ cfg.commands)
    (hopen0 : ∀ x ∈ cfg.commands, x = c ∨ ciPrefAt (mkOpen x) (mkMarker c ctx) = false)
    (hcz : ∀ j, j < ctx.length → ciPrefAt (mkClose c) ((ctx ++ mkClose c).drop j) = false) :
    searchMarker cfg.commands (mkMarker c ctx) = some ⟨0, c, ctx, []⟩ := by
  unfold searchMarker
  rw [searchFirst_zero (matchMarkerAt_on_marker_gen c ctx hcz cfg.commands hcmem hopen0)]
  rfl

/-! ### Feeding a single complete marker chunk by chunk, arbitrary set -/

theorem processChunk_marker_step_gen (cfg : Config) (c ctx : Str)
    (a : Str × Str) (l : List (Str × Str)) (hp : cfg.prompts = a :: l)
    (hcmem : c ∈ cfg.commands) (hc0 : c ≠ [])
    (hcl : ∀ x ∈ c, ciChar '<' x = false)
    (hcs : ∀ x ∈ c, ciChar '/' x = false)
    (hopen0 : ∀ x ∈ cfg.commands, x = c ∨ ciPrefAt (mkOpen x) (mkMarker c ctx) = false)
    (hopen1 : ∀ x ∈ cfg.commands, ∀ p, p < (mkMarker c ctx).length → 0 < p →
      ciPrefAt (mkOpen x) ((mkMarker c ctx).drop p) = false)
    (hcz : ∀ j, j < ctx.length → ciPrefAt (mkClose c) ((ctx ++ mkClose c).drop j) = false)
    (hun : ∀ q, q < (mkMarker c ctx).length →
      ciPrefAt (str "<tool-unsupported") ((mkMarker c ctx).drop q) = false)
    (g chunk : Str) (k0 k1 : Nat)
    (hcat : (mkMarker c ctx).take k0 ++ chunk = (mkMarker c ctx).take k1)
    (hk1 : k1 < (mkMarker c ctx).length) :
    processChunk cfg ⟨(mkMarker c ctx).take k0, g⟩ chunk
      = (⟨(mkMarker c ctx).take k1, g⟩, [.text []], []) := by
  have hu := searchUnsupported_take_gen c ctx hun k1
  have hm := searchMarker_take_gen cfg c ctx hc0 hcl hcs hopen0 hopen1 hcz k1 hk1
  have hkeep := elseKeepPos_take_gen cfg c ctx hcmem hc0 hcl hcs hopen0 hopen1 hcz hun k1 hk1
  rw [processChunk_cons _ _ _ a l hp]
  simp only [hcat]
  rw [processLoop_pass _ _ _ _ (Nat.succ_pos _) hu hm, hkeep]
  simp

theorem processChunk_marker_done_gen (cfg : Config) (c ctx : Str)
    (a : Str × Str) (l : List (Str × Str)) (hp : cfg.prompts = a :: l)
    (hcmem : c ∈ cfg.commands)
    (hopen0 : ∀ x ∈ cfg.commands, x = c ∨ ciPrefAt (mkOpen x) (mkMarker c ctx) = false)
    (hcz : ∀ j, j < ctx.length → ciPrefAt (mkClose c) ((ctx ++ mkClose c).drop j) = false)
    (hun : ∀ q, q < (mkMarker c ctx).length →
      ciPrefAt (str "<tool-unsupported") ((mkMarker c ctx).drop q) = false)
    (g chunk : Str) (k0 : Nat)
    (hcat : (mkMarker c ctx).take k0 ++ chunk = mkMarker c ctx) :
    processChunk cfg ⟨(mkMarker c ctx).take k0, g⟩ chunk
      = (⟨[], g ++ (executeTool cfg c (pyStrip ctx)).1⟩,
         [.text [], .toolOut (executeTool cfg c (pyStrip ctx)).1, .text []],
         (executeTool cfg c (pyStrip ctx)).2) := by
  have hpos : 0 < (mkMarker c ctx).length := by simp [mkMarker, mkOpen]
  have hu := searchUnsupported_marker_gen c ctx hun
  have hm := searchMarker_on_marker_gen cfg c ctx hcmem hopen0 hcz
  have hrest : processLoop cfg ((mkMarker c ctx).length) []
      (g ++ (executeTool cfg c (pyStrip ctx)).1)
      = ([], g ++ (executeTool cfg c (pyStrip ctx)).1, [.text []], []) := by
    rw [processLoop_pass _ _ _ _ hpos searchUnsupported_nil (searchMarker_nil cfg.commands)]
    simp
  have hstep := processLoop_succ_marker cfg (mkMarker c ctx).length
    (mkMarker c ctx) g ⟨0, c, ctx, []⟩ hu hm
  simp only [List.take_zero, List.append_nil] at hstep
  rw [hrest] at hstep
  rw [processChunk_cons _ _ _ a l hp]
  simp only [hcat]
  rw [hstep]
  simp

theorem processChunk_empty_gen (cfg : Config) (a : Str × Str) (l : List (Str × Str))
    (hp : cfg.prompts = a :: l) (g : Str) :
    processChunk cfg ⟨[], g⟩ [] = (⟨[], g⟩, [.text []], []) := by
  rw [processChunk_cons _ _ _ a l hp]
  simp only [List.append_nil]
  rw [processLoop_pass _ _ _ _ (Nat.succ_pos _) searchUnsupported_nil
    (searchMarker_nil cfg.commands)]
  simp

theorem runChunks_empty_tail_gen (cfg : Config) (a : Str × Str) (l : List (Str × Str))
    (hp : cfg.prompts = a :: l) (g : Str) :
    ∀ cs : List Str, (∀ x ∈ cs, x = ([] : Str)) →
      runChunks cfg ⟨[], g⟩ cs = (⟨[], g⟩, cs.map (fun _ => Item.text []), []) := by
  intro cs
  induction cs with
  | nil => intro _; rfl
  | cons x cs ih =>
    intro hall
    have hx : x = [] := hall x (by simp)
    subst hx
    show runChunks _ _ (([] : Str) :: cs) = _
    unfold runChunks
    rw [processChunk_empty_gen cfg a l hp g]
    simp [ih (fun y hy => hall y (by simp [hy]))]

theorem runChunks_marker_aux_gen (cfg : Config) (c ctx : Str)
    (a : Str × Str) (l : List (Str × Str)) (hp : cfg.prompts = a :: l)
    (hcmem : c ∈ cfg.commands) (hc0 : c ≠ [])
    (hcl : ∀ x ∈ c, ciChar '<' x = false)
    (hcs : ∀ x ∈ c, ciChar '/' x = false)
    (hopen0 : ∀ x ∈ cfg.commands, x = c ∨ ciPrefAt (mkOpen x) (mkMarker c ctx) = false)
    (hopen1 : ∀ x ∈ cfg.commands, ∀ p, p < (mkMarker c ctx).length → 0 < p →
      ciPrefAt (mkOpen x) ((mkMarker c ctx).drop p) = false)
    (hcz : ∀ j, j < ctx.length → ciPrefAt (mkClose c) ((ctx ++ mkClose c).drop j) = false)
    (hun : ∀ q, q < (mkMarker c ctx).length →
      ciPrefAt (str "<tool-unsupported") ((mkMarker c ctx).drop q) = false) :
    ∀ (chunks : List Str) (k0 : Nat) (g : Str),
      k0 < (mkMarker c ctx).length →
      (mkMarker c ctx).take k0 ++ chunks.flatten = mkMarker c ctx →
      (runChunks cfg ⟨(mkMarker c ctx).take k0, g⟩ chunks).1
          = ⟨[], g ++ (executeTool cfg c (pyStrip ctx)).1⟩
      ∧ render (runChunks cfg ⟨(mkMarker c ctx).take k0, g⟩ chunks).2.1
          = (executeTool cfg c (pyStrip ctx)).1
      ∧ emittedText (runChunks cfg ⟨(mkMarker c ctx).take k0, g⟩ chunks).2.1 = []
      ∧ (runChunks cfg ⟨(mkMarker c ctx).take k0, g⟩ chunks).2.2
          = (executeTool cfg c (pyStrip ctx)).2 := by
  intro chunks
  induction chunks with
  | nil =>
    intro k0 g hk0 hflat
    exfalso
    simp only [List.flatten_nil, List.append_nil] at hflat
    have hlen := congrArg List.length hflat
    rw [List.length_take] at hlen
    omega
  | cons ch cs ih =>
    intro k0 g hk0 hflat
    have hsplit : ch ++ cs.flatten = (mkMarker c ctx).drop k0 := by
      apply @List.append_cancel_left _ ((mkMarker c ctx).take k0) _ _
      rw [List.take_append_drop]
      simpa [List.flatten_cons, List.append_assoc] using hflat
    have hch : (mkMarker c ctx).take k0 ++ ch = (mkMarker c ctx).take (k0 + ch.length) := by
      rw [List.take_add]
      congr 1
      rw [← hsplit, List.take_left]
    have hlen_le : k0 + ch.length ≤ (mkMarker c ctx).length := by
      have hl := congrArg List.length hsplit
      simp only [List.length_append, List.length_drop] at hl
      omega
    obtain ⟨hs1, hs2⟩ := runChunks_snd_cons cfg ⟨(mkMarker c ctx).take k0, g⟩ ch cs
    by_cases hfin : k0 + ch.length < (mkMarker c ctx).length
    · have hstep := processChunk_marker_step_gen cfg c ctx a l hp hcmem hc0 hcl hcs
        hopen0 hopen1 hcz hun g ch k0 (k0 + ch.length) hch hfin
      have hflat2 : (mkMarker c ctx).take (k0 + ch.length) ++ cs.flatten
          = mkMarker c ctx := by
        rw [← hch, List.append_assoc, hsplit, List.take_append_drop]
      obtain ⟨ih1, ih2, ih3, ih4⟩ := ih (k0 + ch.length) g hfin hflat2
      refine ⟨?_, ?_, ?_, ?_⟩
      · rw [runChunks_fst_cons, hstep]
        exact ih1
      · rw [hs1, hstep]
        exact ih2
      · rw [hs1, hstep]
        exact ih3
      · rw [hs2, hstep]
        exact ih4
    · have hk1 : k0 + ch.length = (mkMarker c ctx).length := by omega
      have hM : (mkMarker c ctx).take k0 ++ ch = mkMarker c ctx := by
        rw [hch, hk1, List.take_length]
      have hfl0 : cs.flatten = ([] : Str) := by
        have hl := congrArg List.length hsplit
        simp only [List.length_append, List.length_drop] at hl
        exact List.eq_nil_of_length_eq_zero (by omega)
      have hall : ∀ x ∈ cs, x = ([] : Str) := List.flatten_eq_nil_iff.mp hfl0
      have hdone := processChunk_marker_done_gen cfg c ctx a l hp hcmem hopen0 hcz hun
        g ch k0 hM
      have htail := runChunks_empty_tail_gen cfg a l hp
        (g ++ (executeTool cfg c (pyStrip ctx)).1) cs hall
      refine ⟨?_, ?_, ?_, ?_⟩
      · simp only [runChunks_fst_cons, hdone]
        rw [htail]
      · rw [hs1]
        simp only [hdone]
        rw [htail]
        rw [render_append, render_const_empty]
        simp [render_cons, render_nil, Item.payload]
      · rw [hs1]
        simp only [hdone]
        rw [htail]
        rw [emittedText_append, emittedText_const_empty]
        simp [emittedText]
      · rw [hs2]
        simp only [hdone]
        rw [htail]
        simp

/-- C1 (amended): chunk-boundary invariance of command-marker detection
holds for every active tool set whenever the complete marker
`<c>ctx</c>` is free of internal interference, namely: the command `c`
is in the set, is nonempty, and contains (up to case) neither `<` nor
`/`; no other command of the set matches the marker head; no command
open tag occurs strictly inside the marker; the closing tag occurs only
at the very end; and the literal `<tool-unsupported` occurs nowhere in
the marker.  Under these conditions, every way of splitting the marker
into chunks yields the same final executor state, the same concatenated
returned output, and the same events as feeding the whole marker in a
single call, and the marker is never partially emitted (the plain-text
part of the returned output is empty).  Without the interference
conditions the original claim is false, for command markers and for
unsupported markers alike: `marker_split_invariance_cex` exhibits a
command marker whose context holds a complete unsupported marker
(split after the inner `/>`, parts of the marker are emitted as plain
text and recovery replaces the tool call) and an unsupported marker
whose reason attribute holds `/>` (split after that `/>`, the whole
marker is emitted as plain text and recovery never runs). -/
theorem marker_split_invariance (cfg : Config) (c ctx : Str)
    (hcmem : c ∈ cfg.commands) (hc0 : c ≠ [])
    (hcl : ∀ x ∈ c, ciChar '<' x = false)
    (hcs : ∀ x ∈ c, ciChar '/' x = false)
    (hopen0 : ∀ x ∈ cfg.commands, x = c ∨ ciPrefAt (mkOpen x) (mkMarker c ctx) = false)
    (hopen1 : ∀ x ∈ cfg.commands, ∀ p, p < (mkMarker c ctx).length → 0 < p →
      ciPrefAt (mkOpen x) ((mkMarker c ctx).drop p) = false)
    (hcz : ∀ j, j < ctx.length → ciPrefAt (mkClose c) ((ctx ++ mkClose c).drop j) = false)
    (hun : ∀ q, q < (mkMarker c ctx).length →
      ciPrefAt (str "<tool-unsupported") ((mkMarker c ctx).drop q) = false)
    (chunks : List Str) (hflat : chunks.flatten = mkMarker c ctx) :
    (runChunks cfg initState chunks).1 = (runChunks cfg initState [mkMarker c ctx]).1
    ∧ render (runChunks cfg initState chunks).2.1
        = render (runChunks cfg initState [mkMarker c ctx]).2.1
    ∧ emittedText (runChunks cfg initState chunks).2.1 = []
    ∧ (runChunks cfg initState chunks).2.2
        = (runChunks cfg initState [mkMarker c ctx]).2.2 := by
  obtain ⟨a, l, hp⟩ : ∃ a l, cfg.prompts = a :: l := by
    cases hcp : cfg.prompts with
    | nil =>
      exfalso
      rw [Config.commands, hcp] at hcmem
      simp at hcmem
    | cons a l => exact ⟨a, l, rfl⟩
  have hpos : 0 < (mkMarker c ctx).length := by simp [mkMarker, mkOpen]
  have h0 : (mkMarker c ctx).take 0 ++ chunks.flatten = mkMarker c ctx := by
    simpa using hflat
  have h1 : (mkMarker c ctx).take 0 ++ (List.flatten [mkMarker c ctx]) = mkMarker c ctx := by
    simp
  obtain ⟨a1, a2, a3, a4⟩ := runChunks_marker_aux_gen cfg c ctx a l hp hcmem hc0 hcl hcs
    hopen0 hopen1 hcz hun chunks 0 [] hpos h0
  obtain ⟨b1, b2, b3, b4⟩ := runChunks_marker_aux_gen cfg c ctx a l hp hcmem hc0 hcl hcs
    hopen0 hopen1 hcz hun [mkMarker c ctx] 0 [] hpos h1
  exact ⟨a1.trans b1.symm, a2.trans b2.symm, a3, a4.trans b4.symm⟩

theorem marker_split_invariance_witness :
    (str "a" ∈ (Config.mk [(str "a", str "PA"), (str "b", str "PB")] none).commands
      ∧ List.flatten [str "<a>x ", str "< y</a>"] = mkMarker (str "a") (str "x < y"))
    ∧ ((runChunks ⟨[(str "a", str "PA"), (str "b", str "PB")], none⟩ initState
            [str "<a>x ", str "< y</a>"]).1
          = (runChunks ⟨[(str "a", str "PA"), (str "b", str "PB")], none⟩ initState
            [mkMarker (str "a") (str "x < y")]).1
      ∧ render (runChunks ⟨[(str "a", str "PA"), (str "b", str "PB")], none⟩ initState
            [str "<a>x ", str "< y</a>"]).2.1
          = render (runChunks ⟨[(str "a", str "PA"), (str "b", str "PB")], none⟩ initState
            [mkMarker (str "a") (str "x < y")]).2.1
      ∧ emittedText (runChunks ⟨[(str "a", str "PA"), (str "b", str "PB")], none⟩ initState
            [str "<a>x ", str "< y</a>"]).2.1 = []
      ∧ (runChunks ⟨[(str "a", str "PA"), (str "b", str "PB")], none⟩ initState
            [str "<a>x ", str "< y</a>"]).2.2
          = (runChunks ⟨[(str "a", str "PA"), (str "b", str "PB")], none⟩ initState
            [mkMarker (str "a") (str "x < y")]).2.2) :=
  ⟨⟨by decide, by decide⟩,
   marker_split_invariance ⟨[(str "a", str "PA"), (str "b", str "PB")], none⟩
     (str "a") (str "x < y") (by decide) (by decide) (by decide) (by decide)
     (by decide) (by decide) (by decide) (by decide)
     [str "<a>x ", str "< y</a>"] (by decide)⟩

end HyuMath
